import Mathlib

/-!
Verification of the fleet multi-agent orchestration layer.

The Python source (src/fleet/agents/base.py and src/fleet/agents/fleet.py) is
shallowly embedded below.  Python dictionaries used as chat messages are mutable
objects shared by reference between the caller, agent transcripts and fleet
composition loops, so messages are modelled as cells of an explicit heap
(`Heap`), and a message reference (`Ref`) is an index into that heap.  Every
operation that in Python mutates state returns the updated state explicitly;
a Python exception is modelled by an `Except Err` outcome that still carries the
state as mutated up to the raise point.  External collaborators (the provider
SDK clients and the `json` library) are modelled as function-valued parameters:
a `Client` bundles the provider oracle (available models, reply text, tool-call
directives and token counts as functions of the outgoing message list) and
`JLoads` stands for `json.loads`, returning `none` when parsing fails.
-/

/-- One tool-call directive as found in an OpenAI-style completion response
(`tool_call.id`, `tool_call.type`, `tool_call.function.name`,
`tool_call.function.arguments`). -/
structure ToolCall where
  id : String
  type : String
  function_name : String
  function_arguments : String
deriving DecidableEq, Repr

/-- A chat message dictionary: `role`, `content` (text or null), and the
optional `tool_call_id` / `tool_calls` fields used on tool-round messages. -/
structure Message where
  role : String
  content : Option String
  tool_call_id : Option String := none
  tool_calls : List ToolCall := []
deriving DecidableEq, Repr

def defaultMsg : Message := ⟨"", none, none, []⟩

/-- The heap of message objects; a `Ref` is an index into it.  This models
Python object identity: two holders of the same `Ref` alias the same mutable
message dictionary. -/
abbrev Heap := List Message

abbrev Ref := Nat

/-- Dereference a message object. -/
def Heap.geti (σ : Heap) (r : Ref) : Message := σ.getD r defaultMsg

/-- Mutate the message object at `r` in place. -/
def Heap.seti (σ : Heap) (r : Ref) (m : Message) : Heap := σ.set r m

/-- Create a fresh message object, returning its reference. -/
def Heap.alloc (σ : Heap) (m : Message) : Ref × Heap := (σ.length, σ ++ [m])

/-- The normalized result of one completed turn.
Modelled from the spec: the `ResponseObject` class (fleet/response/response.py)
is not part of the provided sources; the spec describes a Response as
`content` plus non-negative `input_tokens` and `output_tokens`, immutable once
constructed. -/
structure ResponseObject where
  content : String
  input_tokens : Nat
  output_tokens : Nat
deriving DecidableEq, Repr

/-- Python exception classes raised (directly or by the runtime) in the
embedded code. -/
inductive Err where
  | valueError (msg : String)
  | typeError (msg : String)
  | attributeError (msg : String)
  | jsonDecodeError (msg : String)
  | indexError (msg : String)
deriving DecidableEq, Repr

/-- Which provider SDK a client object belongs to (the code dispatches with
`isinstance` checks; `other` covers any unsupported client object). -/
inductive ClientKind where
  | openai
  | anthropic
  | groq
  | other
deriving DecidableEq, Repr

/-- The provider adapter oracle: one completion call is modelled by reading
`reply` / `tool_calls` / token counts as functions of the outgoing message
list. -/
structure Client where
  kind : ClientKind
  models : List String
  reply : List Message → String
  tool_calls : List Message → List ToolCall
  input_tokens : List Message → Nat
  output_tokens : List Message → Nat

/-- `json.loads`: `none` models a `JSONDecodeError`, `some s` a successful
parse with canonical form `s`. -/
abbrev JLoads := String → Option String

/-- The mutable state of an `Agent` (base.py).  `messages` is the transcript:
a list of references to message objects in the heap. -/
structure AgentState where
  client : Option Client
  system_prompt : String
  name : String
  description : String
  json_mode : Bool
  json_schema : String
  functions : Option (List (String × (String → String)))
  function_schemas : Option (List String)
  messages : List Ref
  content : Option ResponseObject

/-- Boolean substring test used to embed Python's `"json" in s` membership. -/
def strContains (hay needle : String) : Bool :=
  (List.range (hay.length + 1)).any fun i => needle.data.isPrefixOf (hay.data.drop i)

/-- The schema instruction appended in `_prepare_message`
(`json_schema` is stored already serialized, as `json.dumps` would render it). -/
def jsonInstruction (a : AgentState) : String :=
  "\n\nPlease respond in valid JSON format according to the following schema: " ++ a.json_schema

/-- `str.lower()`, as a kernel-computable character-wise map. -/
def strToLower (s : String) : String := ⟨s.data.map Char.toLower⟩

/-- `self.json_mode and "json" not in self.system_prompt.lower()`: whether
`_prepare_message` will mutate the outgoing message. -/
def AgentState.injects (a : AgentState) : Bool :=
  a.json_mode && !(strContains (strToLower a.system_prompt) "json")

/-- `Agent.__init__`: construct an agent and append the system-prompt message
to the (empty) transcript via `set_system_prompt`. -/
def Agent.init (client : Option Client) (system_prompt nm description : String)
    (json_mode : Bool) (json_schema : String)
    (functions : Option (List (String × (String → String))))
    (function_schemas : Option (List String)) (σ : Heap) : AgentState × Heap :=
  let (r, σ1) := σ.alloc ⟨"system", some system_prompt, none, []⟩
  (⟨client, system_prompt, nm, description, json_mode, json_schema,
    functions, function_schemas, [r], none⟩, σ1)

/-- `Agent._prepare_message`: inject the schema instruction into the outgoing
message's content (an in-place mutation of the shared message object) when in
structured mode and the system prompt does not mention json, then append the
message (by reference) to the transcript. -/
def prepare_message (a : AgentState) (σ : Heap) (mref : Ref) : AgentState × Heap :=
  let m := σ.geti mref
  let σ1 := if a.injects then
      match m.content with
      | some s => σ.seti mref { m with content := some (s ++ jsonInstruction a) }
      | none => σ
    else σ
  ({ a with messages := a.messages ++ [mref] }, σ1)

/-- Result of `Agent.send_message`: the outcome (a Response or a raised
exception), plus the agent and heap as mutated up to the return or raise
point, and the number of provider completion calls issued. -/
structure SendRes where
  out : Except Err ResponseObject
  agent : AgentState
  heap : Heap
  completions : Nat

def derefAll (σ : Heap) (rs : List Ref) : List Message := rs.map σ.geti

/-- The JSON error payload recorded for an unknown tool, exactly as
`json.dumps({"error": f"Function '{function_name}' not found"})` renders it. -/
def unknownToolPayload (nm : String) : String :=
  "\x7b\x22error\x22: \x22Function \x27" ++ nm ++ "\x27 not found\x22\x7d"

/-- `Agent._process_single_function_call`: parse the call's arguments, look the
tool up in the registry (recording the structured error payload when it is
absent, raising `TypeError` when there is no registry at all, as `in None`
does), and append the tool-role result message. -/
def process_single_function_call (jl : JLoads) (a : AgentState) (σ : Heap)
    (tc : ToolCall) : Except Err Unit × AgentState × Heap :=
  match jl tc.function_arguments with
  | none => (.error (.jsonDecodeError "Expecting value"), a, σ)
  | some args =>
    match a.functions with
    | none => (.error (.typeError "argument of type \x27NoneType\x27 is not iterable"), a, σ)
    | some reg =>
      let content := match reg.lookup tc.function_name with
        | some fn => fn args
        | none => unknownToolPayload tc.function_name
      let (r, σ1) := σ.alloc ⟨"tool", some content, some tc.id, []⟩
      (.ok (), { a with messages := a.messages ++ [r] }, σ1)

/-- The per-call loop of `Agent._handle_function_calls`: process each requested
call whose `type` is `"function"`; a raised exception aborts the loop but the
tool messages appended so far remain in the transcript. -/
def runToolCalls (jl : JLoads) : List ToolCall → AgentState → Heap →
    Except Err Unit × AgentState × Heap
  | [], a, σ => (.ok (), a, σ)
  | tc :: rest, a, σ =>
    if tc.type == "function" then
      match process_single_function_call jl a σ tc with
      | (.error e, a1, σ1) => (.error e, a1, σ1)
      | (.ok _, a1, σ1) => runToolCalls jl rest a1 σ1
    else runToolCalls jl rest a σ

/-- Append the assistant message and build the turn's `ResponseObject`
(the common tail of the provider handlers); token counts are read from the
first completion response, i.e. from `msgs0`. -/
def addAssistantAndRespond (c : Client) (storedContent respContent : String)
    (msgs0 : List Message) (a : AgentState) (σ : Heap) (completions : Nat) : SendRes :=
  let (r, σ1) := σ.alloc ⟨"assistant", some storedContent, none, []⟩
  let resp : ResponseObject := ⟨respContent, c.input_tokens msgs0, c.output_tokens msgs0⟩
  ⟨.ok resp, { a with messages := a.messages ++ [r], content := some resp }, σ1, completions⟩

/-- `Agent._handle_openai_chat` (together with `_handle_function_calls`):
check model availability, issue one completion; if tool calls are requested,
record the assistant tool-call directive, resolve each call, then issue exactly
one follow-up completion on the extended transcript. -/
def handle_openai_chat (jl : JLoads) (c : Client) (a : AgentState) (σ : Heap)
    (model : String) : SendRes :=
  if !(c.models.contains model) then
    ⟨.error (.valueError ("Model " ++ model ++ " not available for OpenAI")), a, σ, 0⟩
  else
    let msgs0 := derefAll σ a.messages
    let tcs := c.tool_calls msgs0
    match tcs with
    | [] => addAssistantAndRespond c (c.reply msgs0) (c.reply msgs0) msgs0 a σ 1
    | _ :: _ =>
      let (r0, σ1) := σ.alloc ⟨"assistant", none, none, tcs⟩
      let a1 := { a with messages := a.messages ++ [r0] }
      match runToolCalls jl tcs a1 σ1 with
      | (.error e, a2, σ2) => ⟨.error e, a2, σ2, 1⟩
      | (.ok _, a2, σ2) =>
        let finalContent := c.reply (derefAll σ2 a2.messages)
        addAssistantAndRespond c finalContent finalContent msgs0 a2 σ2 2

/-- `Agent._handle_anthropic_chat`: check model availability, issue the
completion; in structured mode the raw reply is parsed *before* any message is
appended, and a parse failure raises with the transcript still ending at the
outgoing user message. -/
def handle_anthropic_chat (jl : JLoads) (c : Client) (a : AgentState) (σ : Heap)
    (model : String) : SendRes :=
  if !(c.models.contains model) then
    ⟨.error (.valueError ("Model " ++ model ++ " not available for Anthropic")), a, σ, 0⟩
  else
    let msgs0 := derefAll σ a.messages
    let content := c.reply msgs0
    if a.json_mode then
      match jl content with
      | none => ⟨.error (.valueError "Response is not in valid JSON format"), a, σ, 1⟩
      | some parsed => addAssistantAndRespond c parsed parsed msgs0 a σ 1
    else addAssistantAndRespond c content content msgs0 a σ 1

def groq_models : List String := ["mixtral-8x7b-32768", "llama2-70b-4096", "llama3-8b-8192"]

/-- `Agent._handle_groq_chat`: model check against a fixed list; the raw reply
is appended to the transcript first and only then parsed in structured mode
(an uncaught `JSONDecodeError` on failure). -/
def handle_groq_chat (jl : JLoads) (c : Client) (a : AgentState) (σ : Heap)
    (model : String) : SendRes :=
  if !(groq_models.contains model) then
    ⟨.error (.valueError ("Model " ++ model ++ " not available for Groq")), a, σ, 0⟩
  else
    let msgs0 := derefAll σ a.messages
    let content := c.reply msgs0
    let (r, σ1) := σ.alloc ⟨"assistant", some content, none, []⟩
    let a1 := { a with messages := a.messages ++ [r] }
    if a.json_mode then
      match jl content with
      | none => ⟨.error (.jsonDecodeError "Expecting value"), a1, σ1, 1⟩
      | some parsed =>
        let resp : ResponseObject := ⟨parsed, c.input_tokens msgs0, c.output_tokens msgs0⟩
        ⟨.ok resp, { a1 with content := some resp }, σ1, 1⟩
    else
      let resp : ResponseObject := ⟨content, c.input_tokens msgs0, c.output_tokens msgs0⟩
      ⟨.ok resp, { a1 with content := some resp }, σ1, 1⟩

/-- `if function_schemas: self.function_schemas = function_schemas` — a truthy
(non-`None`, non-empty) argument replaces the stored schemas. -/
def updSchemas (a : AgentState) (function_schemas : Option (List String)) : AgentState :=
  match function_schemas with
  | some (s :: ss) => { a with function_schemas := some (s :: ss) }
  | _ => a

/-- `_validate_model` followed by the `isinstance` dispatch on the client
object (the tail of `Agent.send_message` after `_prepare_message`). -/
def validate_and_dispatch (jl : JLoads) (a1 : AgentState) (σ1 : Heap)
    (model : String) : SendRes :=
  if model == "" then ⟨.error (.valueError "Model not specified"), a1, σ1, 0⟩
  else match a1.client with
  | none => ⟨.error (.valueError "Unsupported client type"), a1, σ1, 0⟩
  | some c =>
    match c.kind with
    | .openai => handle_openai_chat jl c a1 σ1 model
    | .anthropic => handle_anthropic_chat jl c a1 σ1 model
    | .groq => handle_groq_chat jl c a1 σ1 model
    | .other => ⟨.error (.valueError "Unsupported client type"), a1, σ1, 0⟩

/-- `Agent.send_message`: optionally replace the stored function schemas, run
`_prepare_message` (mutating the shared outgoing message and appending it to
the transcript), validate the model, then dispatch on the client type. -/
def send_message (jl : JLoads) (a : AgentState) (σ : Heap) (model : String)
    (mref : Ref) (function_schemas : Option (List String)) : SendRes :=
  let a0 := updSchemas a function_schemas
  let (a1, σ1) := prepare_message a0 σ mref
  validate_and_dispatch jl a1 σ1 model

/-- A fleet participant: an individual agent, or a nested fleet (its name,
description, synthesize flag and its own participant list). -/
inductive Participant where
  | agent : AgentState → Participant
  | fleet (nm : String) (description : String) (synth : Bool)
      (parts : List Participant) : Participant

/-- `item.name` for either kind of participant. -/
def Participant.pname : Participant → String
  | .agent a => a.name
  | .fleet n _ _ _ => n

def Participant.isFleet : Participant → Bool
  | .agent _ => false
  | .fleet _ _ _ _ => true

mutual
/-- No leaf session reachable from this participant performs structured-output
injection (`_prepare_message` never mutates a shared message). -/
def Participant.noInject : Participant → Bool
  | .agent a => !a.injects
  | .fleet _ _ _ ps => noInjectList ps

def noInjectList : List Participant → Bool
  | [] => true
  | p :: rest => p.noInject && noInjectList rest
end

/-- One direct participant invocation recorded by the sequential composition
loop: the participant's name, the reference of the message object handed to
it, the value of that message at invocation time, whether the invocation went
through `compose_synchronously` (nested fleet) rather than `send_message`, and
the Response it produced. -/
structure CallRec where
  pname : String
  ref : Ref
  msgIn : Message
  viaSeq : Bool
  resp : ResponseObject
deriving DecidableEq, Repr

/-- Result of running one participant (the body shared by the sequential loop
and by `agent_task`): outcome (`none` is Python `None`, returned by an empty
nested fleet), the updated participant, the heap, and whether the
`compose_synchronously` branch was taken. -/
structure PartRes where
  out : Except Err (Option ResponseObject)
  part : Participant
  heap : Heap
  viaSeq : Bool

/-- Result of `Fleet.compose_synchronously`: outcome (the last participant's
Response, `None` for an empty fleet, or a raised exception), updated
participants, heap, and the record of completed direct invocations in order. -/
structure SeqRes where
  out : Except Err (Option ResponseObject)
  parts : List Participant
  heap : Heap
  calls : List CallRec

mutual
/-- Run one participant of a composition on the shared message `mref`:
a nested fleet recurses via its sequential composition, an individual agent
gets `send_message` (with its own stored `function_schemas`, as the fleet loop
passes them). -/
def runPart (jl : JLoads) (model : String) : Participant → Ref → Heap → PartRes
  | .agent a, mref, σ =>
    let r := send_message jl a σ model mref a.function_schemas
    ⟨r.out.map some, .agent r.agent, r.heap, false⟩
  | .fleet n d s ps, mref, σ =>
    let r := composeSyncList jl model ps mref σ none
    ⟨r.out, .fleet n d s r.parts, r.heap, true⟩

/-- The loop of `Fleet.compose_synchronously`: invoke each participant on the
current message object, then build a fresh message whose content is the
current message's content (as possibly mutated by the participant) followed by
the labeled excerpt, and retain the latest Response.  Extracting content from
a `None` response, or concatenating onto a null content, raises `TypeError`
as in Python. -/
def composeSyncList (jl : JLoads) (model : String) :
    List Participant → Ref → Heap → Option ResponseObject → SeqRes
  | [], _, σ, acc => ⟨.ok acc, [], σ, []⟩
  | p :: rest, curRef, σ, _ =>
    let msgIn := σ.geti curRef
    let r := runPart jl model p curRef σ
    match r.out with
    | .error e => ⟨.error e, r.part :: rest, r.heap, []⟩
    | .ok none =>
      ⟨.error (.typeError "\x27NoneType\x27 object is not subscriptable"),
        r.part :: rest, r.heap, []⟩
    | .ok (some resp) =>
      match (r.heap.geti curRef).content with
      | none =>
        ⟨.error (.typeError "can only concatenate str (not \x22NoneType\x22) to str"),
          r.part :: rest, r.heap, []⟩
      | some curContent =>
        let newContent := curContent ++ "\n\n" ++ p.pname ++ ": " ++ resp.content
        let (newRef, σ2) := r.heap.alloc ⟨"user", some newContent, none, []⟩
        let rec2 := composeSyncList jl model rest newRef σ2 (some resp)
        ⟨rec2.out, r.part :: rec2.parts, rec2.heap,
          ⟨p.pname, curRef, msgIn, r.viaSeq, resp⟩ :: rec2.calls⟩
end

/-- A `Fleet` object (fleet.py): the ordered participants, display name,
description (the synthesis objective) and the synthesize flag. -/
structure Fleet where
  agents_or_composers : List Participant
  name : String := "Fleet"
  description : String := ""
  synthesize : Bool := true

/-- `Fleet.compose_synchronously` on the caller's `initial_message` object. -/
def compose_synchronously (jl : JLoads) (model : String) (f : Fleet)
    (mref : Ref) (σ : Heap) : SeqRes :=
  composeSyncList jl model f.agents_or_composers mref σ none

/-- One concurrently launched task as recorded by the concurrent composition:
the participant's declared index and name, the message reference handed to it,
whether it ran through the sequential-composition protocol, and its outcome. -/
instance {α β : Type} [DecidableEq α] [DecidableEq β] : DecidableEq (Except α β) :=
  fun a b =>
  match a, b with
  | .ok x, .ok y => if h : x = y then .isTrue (by rw [h]) else .isFalse (by simp [h])
  | .error x, .error y => if h : x = y then .isTrue (by rw [h]) else .isFalse (by simp [h])
  | .ok _, .error _ => .isFalse (by simp)
  | .error _, .ok _ => .isFalse (by simp)

structure TaskRec where
  idx : Nat
  pname : String
  ref : Ref
  viaSeq : Bool
  out : Except Err (Option ResponseObject)
deriving DecidableEq, Repr

/-- The value a finished task contributes to `asyncio.gather`'s result list. -/
def TaskRec.respOf (rec : TaskRec) : Option ResponseObject :=
  match rec.out with
  | .ok v => v
  | .error _ => none

/-- Execute the launched tasks in completion order `sched` (each entry an
index into the participant list).  The coroutines contain no await points, so
each task runs to completion when scheduled; every task runs even if an
earlier one raised, and the first raised exception (in completion order) is
the one `gather` propagates. -/
def runTasks (jl : JLoads) (model : String) (ps : List Participant) :
    List Nat → Ref → Heap → Except Err Unit × List Participant × Heap × List TaskRec
  | [], _, σ => (.ok (), ps, σ, [])
  | i :: rest, mref, σ =>
    match ps[i]? with
    | none => (.error (.indexError "list index out of range"), ps, σ, [])
    | some p =>
      let r := runPart jl model p mref σ
      let (oR, ps2, σ2, recs) := runTasks jl model (ps.set i r.part) rest mref r.heap
      let out : Except Err Unit := match r.out with
        | .error e => .error e
        | .ok _ => oR
      (out, ps2, σ2, ⟨i, p.pname, mref, r.viaSeq, r.out⟩ :: recs)

/-- `asyncio.gather`'s result collection: the i-th element of the returned
list is the result of the task launched for the i-th declared participant,
regardless of the completion order in which the tasks actually ran. -/
def gatherResults (n : Nat) (recs : List TaskRec) : List (Option ResponseObject) :=
  (List.range n).map fun i => (recs.find? fun rc => rc.idx == i).bind TaskRec.respOf

/-- `Fleet._format_agent_responses`: enumerate the responses, indexing the
participant list in parallel; reading `.content` of a `None` response raises
`AttributeError`. -/
def formatLoop (ps : List Participant) :
    List (Option ResponseObject) → Nat → Except Err String
  | [], _ => .ok ""
  | r :: rest, i =>
    match ps[i]? with
    | none => .error (.indexError "list index out of range")
    | some p =>
      match r with
      | none => .error (.attributeError "\x27NoneType\x27 object has no attribute \x27content\x27")
      | some resp =>
        let entry := match p with
          | .agent a =>
            "Agent: " ++ a.name ++ "\n" ++ "Description: " ++ a.description ++ "\n" ++
              "System Prompt: " ++ a.system_prompt ++ "\n" ++
              "Response: " ++ resp.content ++ "\n\n"
          | .fleet n d _ _ =>
            "Fleet: " ++ n ++ "\n" ++ "Description: " ++ d ++ "\n" ++
              "Response: " ++ resp.content ++ "\n\n"
        (formatLoop ps rest (i + 1)).map fun s => entry ++ s

def format_agent_responses (ps : List Participant)
    (responses : List (Option ResponseObject)) : Except Err String :=
  formatLoop ps responses 0

/-- The synthesis prompt of `Fleet.synthesize_responses`, verbatim. -/
def synthesisPrompt (description formatted : String) : String :=
  "\n        As an expert synthesizer, your task is to combine the outputs of multiple agents into a single, coherent response. \n        The team\x27s overall goal is: "
    ++ description
    ++ "\n\n        Here are the individual agent responses:\n\n        "
    ++ formatted
    ++ "\n\n        Please synthesize these responses into a single, cohesive output that aligns with the team\x27s goal. \n        Ensure that you address all key points raised by the individual agents while avoiding redundancy. \n        The final output should be well-structured and provide clear, actionable insights or recommendations.\n        "

/-- The client selection of `Fleet.synthesize_responses`: when every
participant is a fleet, or the first participant is a fleet, take
`agents_or_composers[0].agents_or_composers[0].client` (descending exactly one
nesting level — a doubly nested first participant raises `AttributeError`);
when the first participant is an agent, take its client. -/
def synthClient (ps : List Participant) : Except Err (Option Client) :=
  let firstOfFirst : Except Err (Option Client) :=
    match ps[0]? with
    | none => .error (.indexError "list index out of range")
    | some (Participant.agent _) =>
      .error (.attributeError "\x27Agent\x27 object has no attribute \x27agents_or_composers\x27")
    | some (Participant.fleet _ _ _ inner) =>
      match inner[0]? with
      | none => .error (.indexError "list index out of range")
      | some (Participant.agent a) => .ok a.client
      | some (Participant.fleet _ _ _ _) =>
        .error (.attributeError "\x27Fleet\x27 object has no attribute \x27client\x27")
  if ps.all Participant.isFleet then firstOfFirst
  else match ps[0]? with
  | none => .error (.indexError "list index out of range")
  | some (Participant.agent a) => .ok a.client
  | some (Participant.fleet _ _ _ _) => firstOfFirst

/-- `Fleet.synthesize_responses`: build the synthesis prompt (formatting the
responses first), select a client, construct the transient synthesis agent,
and issue a single turn with the synthesis prompt as the user message. -/
def synthesize_responses (jl : JLoads) (model : String) (description : String)
    (ps : List Participant) (responses : List (Option ResponseObject)) (σ : Heap) :
    Except Err ResponseObject × Heap :=
  match format_agent_responses ps responses with
  | .error e => (.error e, σ)
  | .ok formatted =>
    let prompt := synthesisPrompt description formatted
    match synthClient ps with
    | .error e => (.error e, σ)
    | .ok cl =>
      let (sa, σ1) := Agent.init cl prompt "Synthesis Agent"
        "Synthesizes multiple agent responses" false "null" none none σ
      let (mr, σ2) := σ1.alloc ⟨"user", some prompt, none, []⟩
      let r := send_message jl sa σ2 model mr none
      (r.out, r.heap)

/-- Result of `Fleet.compose_asynchronously`: the synthesized Response or the
index-aligned response list, updated participants, heap, and the task
records. -/
structure AsyncRes where
  out : Except Err (Sum ResponseObject (List (Option ResponseObject)))
  parts : List Participant
  heap : Heap
  recs : List TaskRec

/-- `Fleet.compose_asynchronously`: launch one task per participant against
the same `initial_message` object, gather the results in declared order, then
optionally synthesize. -/
def compose_asynchronously (jl : JLoads) (model : String) (sched : List Nat)
    (f : Fleet) (mref : Ref) (σ : Heap) : AsyncRes :=
  let (o, ps1, σ1, recs) := runTasks jl model f.agents_or_composers sched mref σ
  match o with
  | .error e => ⟨.error e, ps1, σ1, recs⟩
  | .ok _ =>
    let responses := gatherResults f.agents_or_composers.length recs
    if f.synthesize then
      match synthesize_responses jl model f.description ps1 responses σ1 with
      | (.error e, σ2) => ⟨.error e, ps1, σ2, recs⟩
      | (.ok r, σ2) => ⟨.ok (.inl r), ps1, σ2, recs⟩
    else ⟨.ok (.inr responses), ps1, σ1, recs⟩

/-- The result of `Fleet.compose`: either the sequential protocol's value or
the concurrent protocol's value. -/
inductive ComposeVal where
  | fromSeq : Option ResponseObject → ComposeVal
  | fromAsync : Sum ResponseObject (List (Option ResponseObject)) → ComposeVal
deriving DecidableEq

structure ComposeRes where
  out : Except Err ComposeVal
  parts : List Participant
  heap : Heap
  calls : List CallRec
  recs : List TaskRec

/-- The exact message of the invalid-mode `ValueError` raised by
`Fleet.compose` (typo included). -/
def invalidModeMsg : String :=
  "Invalid mode. Choose \x27synchronously\x27 or \x27asynchrounsly\x27."

/-- `Fleet.compose`: dispatch on the mode string; any unrecognized mode raises
`ValueError` with a fixed message, before any participant is invoked. -/
def Fleet.compose (jl : JLoads) (model : String) (sched : List Nat) (f : Fleet)
    (mref : Ref) (σ : Heap) (mode : String) : ComposeRes :=
  if mode == "synchronously" then
    let r := compose_synchronously jl model f mref σ
    ⟨r.out.map .fromSeq, r.parts, r.heap, r.calls, []⟩
  else if mode == "asynchronously" then
    let r := compose_asynchronously jl model sched f mref σ
    ⟨r.out.map .fromAsync, r.parts, r.heap, [], r.recs⟩
  else ⟨.error (.valueError invalidModeMsg), f.agents_or_composers, σ, [], []⟩

/-- The public session operations of the `Agent` class exercised by the
transcript invariant: `add_message`, `clear_messages`, and a full
`send_message` turn on a freshly created message object. -/
inductive AgOp where
  | add (m : Message)
  | clear
  | turn (model : String) (m : Message) (fs : Option (List String))
deriving DecidableEq

def AgOp.isClear : AgOp → Bool
  | .clear => true
  | _ => false

/-- A session together with the heap holding its message objects. -/
structure AgSt where
  agent : AgentState
  heap : Heap

/-- One public operation on a session. -/
def stepOp (jl : JLoads) (s : AgSt) : AgOp → AgSt
  | .add m =>
    let (r, σ1) := s.heap.alloc m
    ⟨{ s.agent with messages := s.agent.messages ++ [r] }, σ1⟩
  | .clear => ⟨{ s.agent with messages := [] }, s.heap⟩
  | .turn model m fs =>
    let (r, σ1) := s.heap.alloc m
    let res := send_message jl s.agent σ1 model r fs
    ⟨res.agent, res.heap⟩

def runOps (jl : JLoads) (s : AgSt) : List AgOp → AgSt
  | [] => s
  | op :: rest => runOps jl (stepOp jl s op) rest

/-! Concrete fixtures used by counterexamples and witnesses. -/

/-- A provider oracle that knows model `"m1"` and always replies `"ok"`. -/
def okClient : Client :=
  { kind := .anthropic, models := ["m1"], reply := fun _ => "ok",
    tool_calls := fun _ => [], input_tokens := fun _ => 1, output_tokens := fun _ => 2 }

/-- A `json.loads` oracle for which every string parses (to itself). -/
def jlId : JLoads := fun s => some s

/-- A `json.loads` oracle for which nothing parses. -/
def jlNone : JLoads := fun _ => none

/-- A plain (non-structured-mode) agent bound to `okClient`. -/
def mkPlainAgent (nm : String) : AgentState :=
  { client := some okClient, system_prompt := "You are a helpful assistant.",
    name := nm, description := "", json_mode := false, json_schema := "null",
    functions := none, function_schemas := none, messages := [], content := none }

/-- A structured-mode agent whose system prompt does not mention json, so
`_prepare_message` mutates the outgoing message. -/
def mkJsonAgent (nm : String) : AgentState :=
  { mkPlainAgent nm with json_mode := true, json_schema := "\x7b\x7d" }

/-- The heap `σ'` extends `σ` except possibly at the message object `r`:
no message object other than `r` that existed in `σ` has been mutated. -/
def framePresExc (σ σ' : Heap) (r : Ref) : Prop :=
  σ.length ≤ σ'.length ∧ ∀ i, i < σ.length → i ≠ r → σ'.geti i = σ.geti i

/-- The heap `σ'` extends `σ`: no message object existing in `σ` has been
mutated at all. -/
def framePresAll (σ σ' : Heap) : Prop :=
  σ.length ≤ σ'.length ∧ ∀ i, i < σ.length → σ'.geti i = σ.geti i

def defaultCallRec : CallRec := ⟨"", 0, defaultMsg, false, ⟨"", 0, 0⟩⟩

/-- The running pipeline text: the initial content followed by the labeled
excerpt (`"\n\n{name}: {content}"`) of each completed call, in order. -/
def expectedContent (c0 : String) (l : List CallRec) : String :=
  l.foldl (fun c cr => c ++ "\n\n" ++ cr.pname ++ ": " ++ cr.resp.content) c0

/-- A freshly constructed session (name only; remaining constructor arguments
at their defaults) together with its heap. -/
def initAgSt (cl : Option Client) (sp nm : String) (σ0 : Heap) : AgSt :=
  ⟨(Agent.init cl sp nm "" false "null" none none σ0).1,
   (Agent.init cl sp nm "" false "null" none none σ0).2⟩

/-- A tool-call directive for an unregistered tool named `subtract`. -/
def toolCallSub : ToolCall :=
  ⟨"call1", "function", "subtract", "\x7b\x22a\x22: 2, \x22b\x22: 3\x7d"⟩

/-- An OpenAI-style oracle that always requests the `subtract` tool call and
replies `"final"` to any completion. -/
def openaiToolClient : Client :=
  { kind := .openai, models := ["m1"], reply := fun _ => "final",
    tool_calls := fun _ => [toolCallSub],
    input_tokens := fun _ => 1, output_tokens := fun _ => 2 }

/-- An agent whose registry holds only `add`, bound to `openaiToolClient`. -/
def toolAgent : AgentState :=
  { client := some openaiToolClient, system_prompt := "You are a helpful assistant.",
    name := "T", description := "", json_mode := false, json_schema := "null",
    functions := some [("add", fun args => args)], function_schemas := none,
    messages := [], content := none }

/-! # Theorems -/

theorem Heap.length_seti (σ : Heap) (r : Ref) (m : Message) :
    (σ.seti r m).length = σ.length := by
  simp [Heap.seti]

theorem Heap.length_alloc (σ : Heap) (m : Message) :
    (σ.alloc m).2.length = σ.length + 1 := by
  simp [Heap.alloc]

theorem Heap.geti_seti_ne (σ : Heap) (r : Ref) (m : Message) (i : Ref) (h : i ≠ r) :
    (σ.seti r m).geti i = σ.geti i := by
  simp [Heap.seti, Heap.geti, List.getD, List.getElem?_set_ne (Ne.symm h)]

theorem Heap.geti_seti_self (σ : Heap) (r : Ref) (m : Message) (h : r < σ.length) :
    (σ.seti r m).geti r = m := by
  simp [Heap.seti, Heap.geti, List.getD, List.getElem?_set_self, h]

theorem Heap.geti_alloc_lt (σ : Heap) (m : Message) (i : Ref) (h : i < σ.length) :
    (σ.alloc m).2.geti i = σ.geti i := by
  simp [Heap.alloc, Heap.geti, List.getD, List.getElem?_append_left h]

theorem Heap.geti_alloc_self (σ : Heap) (m : Message) :
    (σ.alloc m).2.geti σ.length = m := by
  simp [Heap.alloc, Heap.geti, List.getD]

theorem Heap.geti_append_self (σ : Heap) (m : Message) :
    Heap.geti (σ ++ [m]) σ.length = m := Heap.geti_alloc_self σ m

theorem framePresAll.refl (σ : Heap) : framePresAll σ σ := ⟨Nat.le_refl _, fun _ _ => rfl⟩

theorem framePresAll.trans {σ1 σ2 σ3 : Heap} (h1 : framePresAll σ1 σ2)
    (h2 : framePresAll σ2 σ3) : framePresAll σ1 σ3 :=
  ⟨Nat.le_trans h1.1 h2.1, fun i hi => by
    rw [h2.2 i (Nat.lt_of_lt_of_le hi h1.1), h1.2 i hi]⟩

theorem framePresAll.toExc {σ σ' : Heap} (r : Ref) (h : framePresAll σ σ') :
    framePresExc σ σ' r := ⟨h.1, fun i hi _ => h.2 i hi⟩

theorem framePresExc.trans_all {σ1 σ2 σ3 : Heap} {r : Ref}
    (h1 : framePresExc σ1 σ2 r) (h2 : framePresAll σ2 σ3) : framePresExc σ1 σ3 r :=
  ⟨Nat.le_trans h1.1 h2.1, fun i hi hne => by
    rw [h2.2 i (Nat.lt_of_lt_of_le hi h1.1), h1.2 i hi hne]⟩

theorem framePresAll_alloc (σ : Heap) (m : Message) : framePresAll σ (σ.alloc m).2 :=
  ⟨by simp [Heap.length_alloc], fun i hi => Heap.geti_alloc_lt σ m i hi⟩

theorem framePresExc_seti (σ : Heap) (r : Ref) (m : Message) :
    framePresExc σ (σ.seti r m) r :=
  ⟨by simp [Heap.length_seti], fun i hi hne => Heap.geti_seti_ne σ r m i hne⟩

/-- `_process_single_function_call` only appends to the transcript and
allocates fresh message objects. -/
theorem process_single_function_call_frame (jl : JLoads) (a : AgentState)
    (σ : Heap) (tc : ToolCall) :
    framePresAll σ (process_single_function_call jl a σ tc).2.2 ∧
    ∃ t, (process_single_function_call jl a σ tc).2.1 =
      { a with messages := a.messages ++ t } := by
  unfold process_single_function_call
  split
  · exact ⟨framePresAll.refl σ, [], by simp⟩
  · split
    · exact ⟨framePresAll.refl σ, [], by simp⟩
    · exact ⟨framePresAll_alloc σ _, [σ.length], by simp [Heap.alloc]⟩

/-- The tool-resolution loop only appends to the transcript and allocates
fresh message objects. -/
theorem runToolCalls_frame (jl : JLoads) (tcs : List ToolCall) (a : AgentState)
    (σ : Heap) :
    framePresAll σ (runToolCalls jl tcs a σ).2.2 ∧
    ∃ t, (runToolCalls jl tcs a σ).2.1 = { a with messages := a.messages ++ t } := by
  induction tcs generalizing a σ with
  | nil => exact ⟨framePresAll.refl σ, [], by simp [runToolCalls]⟩
  | cons tc rest ih =>
    rw [runToolCalls]
    by_cases htc : (tc.type == "function") = true
    · rw [if_pos htc]
      obtain ⟨hf, t1, ha1⟩ := process_single_function_call_frame jl a σ tc
      rcases hp : process_single_function_call jl a σ tc with ⟨o, a1, σ1⟩
      rw [hp] at hf ha1
      dsimp only at hf ha1
      cases o with
      | error e => exact ⟨hf, t1, ha1⟩
      | ok u =>
        obtain ⟨hf2, t2, ha2⟩ := ih a1 σ1
        refine ⟨framePresAll.trans hf hf2, t1 ++ t2, ?_⟩
        rw [ha2, ha1]
        simp
    · rw [if_neg htc]
      exact ih a σ

/-- `addAssistantAndRespond` allocates one fresh assistant message, appends it
to the transcript and stores the Response. -/
theorem addAssistantAndRespond_frame (c : Client) (sc rc : String)
    (msgs0 : List Message) (a : AgentState) (σ : Heap) (k : Nat) :
    framePresAll σ (addAssistantAndRespond c sc rc msgs0 a σ k).heap ∧
    ∃ t ct, (addAssistantAndRespond c sc rc msgs0 a σ k).agent =
      { a with messages := a.messages ++ t, content := ct } := by
  refine ⟨framePresAll_alloc σ _,
    [σ.length], some ⟨rc, c.input_tokens msgs0, c.output_tokens msgs0⟩, ?_⟩
  simp [addAssistantAndRespond, Heap.alloc]

/-- `_handle_openai_chat` never mutates existing message objects; it only
allocates new ones and appends to the transcript. -/
theorem handle_openai_chat_frame (jl : JLoads) (c : Client) (a : AgentState)
    (σ : Heap) (model : String) :
    framePresAll σ (handle_openai_chat jl c a σ model).heap ∧
    ∃ t ct, (handle_openai_chat jl c a σ model).agent =
      { a with messages := a.messages ++ t, content := ct } := by
  unfold handle_openai_chat
  split
  · exact ⟨framePresAll.refl σ, [], a.content, by simp⟩
  · dsimp only
    rcases htc : c.tool_calls (derefAll σ a.messages) with _ | ⟨tc0, rest0⟩
    · obtain ⟨hf, t, ct, ha⟩ := addAssistantAndRespond_frame c
        (c.reply (derefAll σ a.messages)) (c.reply (derefAll σ a.messages))
        (derefAll σ a.messages) a σ 1
      exact ⟨hf, t, ct, ha⟩
    · simp only [Heap.alloc]
      obtain ⟨hf1, t1, ha1⟩ := runToolCalls_frame jl (tc0 :: rest0)
        { a with messages := a.messages ++ [σ.length] }
        (σ ++ [⟨"assistant", none, none, tc0 :: rest0⟩])
      rcases hp : runToolCalls jl (tc0 :: rest0)
          { a with messages := a.messages ++ [σ.length] }
          (σ ++ [⟨"assistant", none, none, tc0 :: rest0⟩])
        with ⟨o, a2, σ2⟩
      rw [hp] at hf1 ha1
      dsimp only at hf1 ha1
      simp only [hp]
      have halloc : framePresAll σ (σ ++ [(⟨"assistant", none, none, tc0 :: rest0⟩ : Message)]) :=
        framePresAll_alloc σ _
      have hfa : framePresAll σ σ2 := framePresAll.trans halloc hf1
      cases o with
      | error e =>
        refine ⟨hfa, σ.length :: t1, a.content, ?_⟩
        rw [ha1]
        simp
      | ok u =>
        obtain ⟨hf2, t2, ct2, ha2⟩ := addAssistantAndRespond_frame c
          (c.reply (derefAll σ2 a2.messages)) (c.reply (derefAll σ2 a2.messages))
          (derefAll σ a.messages) a2 σ2 2
        refine ⟨framePresAll.trans hfa hf2, σ.length :: (t1 ++ t2), ct2, ?_⟩
        rw [ha2, ha1]
        simp

/-- `_handle_anthropic_chat` never mutates existing message objects. -/
theorem handle_anthropic_chat_frame (jl : JLoads) (c : Client) (a : AgentState)
    (σ : Heap) (model : String) :
    framePresAll σ (handle_anthropic_chat jl c a σ model).heap ∧
    ∃ t ct, (handle_anthropic_chat jl c a σ model).agent =
      { a with messages := a.messages ++ t, content := ct } := by
  unfold handle_anthropic_chat
  split
  · exact ⟨framePresAll.refl σ, [], a.content, by simp⟩
  · dsimp only
    split
    · split
      · exact ⟨framePresAll.refl σ, [], a.content, by simp⟩
      · obtain ⟨hf, t, ct, ha⟩ := addAssistantAndRespond_frame c _ _
          (derefAll σ a.messages) a σ 1
        exact ⟨hf, t, ct, ha⟩
    · obtain ⟨hf, t, ct, ha⟩ := addAssistantAndRespond_frame c _ _
        (derefAll σ a.messages) a σ 1
      exact ⟨hf, t, ct, ha⟩

/-- `_handle_groq_chat` never mutates existing message objects. -/
theorem handle_groq_chat_frame (jl : JLoads) (c : Client) (a : AgentState)
    (σ : Heap) (model : String) :
    framePresAll σ (handle_groq_chat jl c a σ model).heap ∧
    ∃ t ct, (handle_groq_chat jl c a σ model).agent =
      { a with messages := a.messages ++ t, content := ct } := by
  unfold handle_groq_chat
  split
  · exact ⟨framePresAll.refl σ, [], a.content, by simp⟩
  · simp only [Heap.alloc]
    split
    · split
      · exact ⟨framePresAll_alloc σ _, [σ.length], a.content, by simp [Heap.alloc]⟩
      · next args heq =>
        exact ⟨framePresAll_alloc σ _, [σ.length],
          some ⟨args, c.input_tokens (derefAll σ a.messages),
            c.output_tokens (derefAll σ a.messages)⟩, by simp [Heap.alloc]⟩
    · exact ⟨framePresAll_alloc σ _, [σ.length],
        some ⟨c.reply (derefAll σ a.messages), c.input_tokens (derefAll σ a.messages),
          c.output_tokens (derefAll σ a.messages)⟩, by simp [Heap.alloc]⟩

/-- Replacing the stored function schemas only touches that field. -/
theorem updSchemas_spec (a : AgentState) (fs : Option (List String)) :
    ∃ fs2, updSchemas a fs = { a with function_schemas := fs2 } := by
  unfold updSchemas
  split
  · exact ⟨_, rfl⟩
  · exact ⟨a.function_schemas, by simp⟩

/-- `_prepare_message` appends the message reference to the transcript and
touches no other agent field. -/
theorem prepare_message_agent (a : AgentState) (σ : Heap) (mref : Ref) :
    (prepare_message a σ mref).1 = { a with messages := a.messages ++ [mref] } := rfl

/-- The heap produced by `_prepare_message` depends only on the fields that
drive injection. -/
theorem prepare_message_heap_congr (a : AgentState) (fs2 : Option (List String))
    (σ : Heap) (mref : Ref) :
    (prepare_message { a with function_schemas := fs2 } σ mref).2 =
      (prepare_message a σ mref).2 := by
  simp only [prepare_message, AgentState.injects, jsonInstruction]

/-- `_prepare_message` mutates at most the outgoing message object, and leaves
the heap untouched when injection is off. -/
theorem prepare_message_frame (a : AgentState) (σ : Heap) (mref : Ref) :
    framePresExc σ (prepare_message a σ mref).2 mref ∧
    (a.injects = false → (prepare_message a σ mref).2 = σ) := by
  unfold prepare_message
  dsimp only
  constructor
  · split
    · split
      · exact framePresExc_seti σ mref _
      · exact (framePresAll.refl σ).toExc mref
    · exact (framePresAll.refl σ).toExc mref
  · intro hni
    simp [hni]

/-- `_validate_model` plus client dispatch never mutates existing message
objects and only appends to the transcript. -/
theorem validate_and_dispatch_frame (jl : JLoads) (a : AgentState) (σ : Heap)
    (model : String) :
    framePresAll σ (validate_and_dispatch jl a σ model).heap ∧
    ∃ t ct, (validate_and_dispatch jl a σ model).agent =
      { a with messages := a.messages ++ t, content := ct } := by
  unfold validate_and_dispatch
  split
  · exact ⟨framePresAll.refl σ, [], a.content, by simp⟩
  · split
    · exact ⟨framePresAll.refl σ, [], a.content, by simp⟩
    · split
      · exact handle_openai_chat_frame jl _ a σ model
      · exact handle_anthropic_chat_frame jl _ a σ model
      · exact handle_groq_chat_frame jl _ a σ model
      · exact ⟨framePresAll.refl σ, [], a.content, by simp⟩

/-- Frame conditions of `Agent.send_message`: (1) after `_prepare_message`
nothing else mutates existing message objects; (2) relative to the initial
heap at most the outgoing message `mref` is mutated; (3) with injection off
nothing is mutated at all; (4) the transcript is extended by the outgoing
message reference followed by freshly allocated references, and all agent
fields other than transcript, stored Response and function schemas are
unchanged. -/
theorem send_message_frame (jl : JLoads) (a : AgentState) (σ : Heap)
    (model : String) (mref : Ref) (fs : Option (List String)) :
    framePresAll (prepare_message a σ mref).2 (send_message jl a σ model mref fs).heap ∧
    framePresExc σ (send_message jl a σ model mref fs).heap mref ∧
    (a.injects = false → framePresAll σ (send_message jl a σ model mref fs).heap) ∧
    ∃ t ct fs2, (send_message jl a σ model mref fs).agent =
      { a with messages := a.messages ++ mref :: t, content := ct, function_schemas := fs2 } := by
  obtain ⟨fs0, hupd⟩ := updSchemas_spec a fs
  have hheap : (prepare_message (updSchemas a fs) σ mref).2 = (prepare_message a σ mref).2 := by
    rw [hupd]; exact prepare_message_heap_congr a fs0 σ mref
  have hinj : (updSchemas a fs).injects = a.injects := by
    rw [hupd]; simp [AgentState.injects]
  obtain ⟨hvd, t, ct, hvagent⟩ := validate_and_dispatch_frame jl
    (prepare_message (updSchemas a fs) σ mref).1 (prepare_message (updSchemas a fs) σ mref).2 model
  have hsend : send_message jl a σ model mref fs =
      validate_and_dispatch jl (prepare_message (updSchemas a fs) σ mref).1
        (prepare_message (updSchemas a fs) σ mref).2 model := rfl
  obtain ⟨hexc, hoff⟩ := prepare_message_frame a σ mref
  have h1 : framePresAll (prepare_message a σ mref).2
      (send_message jl a σ model mref fs).heap := by
    rw [hsend, ← hheap]; exact hvd
  refine ⟨h1, hexc.trans_all h1, ?_, ?_⟩
  · intro hni
    have heq := hoff hni
    rw [heq] at h1
    exact h1
  · refine ⟨t, ct, fs0, ?_⟩
    rw [hsend, hvagent, prepare_message_agent, hupd]
    simp

/-- If the excluded reference is fresh for the initial heap, an exclusive
frame extension collapses to a full one. -/
theorem framePresExc.weaken_fresh {σ1 σ2 σ3 : Heap} {r2 : Ref}
    (hle : σ1.length ≤ r2) (h12 : framePresAll σ1 σ2)
    (h23 : framePresExc σ2 σ3 r2) : framePresAll σ1 σ3 :=
  ⟨Nat.le_trans h12.1 h23.1, fun i hi => by
    rw [h23.2 i (Nat.lt_of_lt_of_le hi h12.1) (Nat.ne_of_lt (Nat.lt_of_lt_of_le hi hle)),
      h12.2 i hi]⟩

mutual
/-- Running one participant mutates at most the shared message object it was
handed (and nothing at all when no reachable leaf injects), and preserves the
participant's name and kind. -/
theorem runPart_frame (jl : JLoads) (model : String) (p : Participant)
    (mref : Ref) (σ : Heap) :
    framePresExc σ (runPart jl model p mref σ).heap mref ∧
    (p.noInject = true → framePresAll σ (runPart jl model p mref σ).heap) ∧
    (runPart jl model p mref σ).part.pname = p.pname ∧
    (runPart jl model p mref σ).part.isFleet = p.isFleet := by
  cases p with
  | agent a =>
    obtain ⟨_, hexc, hoff, t, ct, fs2, hagent⟩ :=
      send_message_frame jl a σ model mref a.function_schemas
    simp only [runPart]
    refine ⟨hexc, ?_, ?_, rfl⟩
    · intro hni
      simp only [Participant.noInject, Bool.not_eq_true'] at hni
      exact hoff hni
    · simp [Participant.pname, hagent]
  | fleet n d s ps =>
    obtain ⟨hexc, hni⟩ := composeSyncList_frame jl model ps mref σ none
    simp only [runPart]
    exact ⟨hexc, fun h => hni (by simpa [Participant.noInject] using h), rfl, rfl⟩

/-- The sequential composition loop mutates at most the message object it was
handed; with injection off everywhere it mutates nothing. -/
theorem composeSyncList_frame (jl : JLoads) (model : String)
    (ps : List Participant) (curRef : Ref) (σ : Heap) (acc : Option ResponseObject) :
    framePresExc σ (composeSyncList jl model ps curRef σ acc).heap curRef ∧
    (noInjectList ps = true → framePresAll σ (composeSyncList jl model ps curRef σ acc).heap) := by
  cases ps with
  | nil =>
    simp only [composeSyncList]
    exact ⟨(framePresAll.refl σ).toExc curRef, fun _ => framePresAll.refl σ⟩
  | cons p rest =>
    obtain ⟨hexc, hni, _, _⟩ := runPart_frame jl model p curRef σ
    have hheadni : noInjectList (p :: rest) = true → p.noInject = true := by
      intro h
      simp only [noInjectList, Bool.and_eq_true] at h
      exact h.1
    rw [composeSyncList]
    dsimp only
    split
    · exact ⟨hexc, fun h => hni (hheadni h)⟩
    · exact ⟨hexc, fun h => hni (hheadni h)⟩
    · next resp hresp =>
      split
      · exact ⟨hexc, fun h => hni (hheadni h)⟩
      · next curContent hcur =>
        simp only [Heap.alloc]
        obtain ⟨hexc2, _⟩ := composeSyncList_frame jl model rest
          (runPart jl model p curRef σ).heap.length
          ((runPart jl model p curRef σ).heap ++
            [⟨"user", some (curContent ++ "\n\n" ++ p.pname ++ ": " ++ resp.content),
              none, []⟩]) (some resp)
        have halloc : framePresAll (runPart jl model p curRef σ).heap
            ((runPart jl model p curRef σ).heap ++
              [⟨"user", some (curContent ++ "\n\n" ++ p.pname ++ ": " ++ resp.content),
                none, []⟩]) :=
          framePresAll_alloc (runPart jl model p curRef σ).heap _
        have hall := framePresExc.weaken_fresh (Nat.le_refl _) halloc hexc2
        exact ⟨hexc.trans_all hall, fun h => (hni (hheadni h)).trans hall⟩
end

/-- Characterization of a successful run of the sequential composition loop
over participants none of which inject: the completed-call record lists the
participants once each in declared order; the message handed to the k-th
participant carries the initial content followed by the labeled excerpts of
the first k calls; and the returned value is the last call's Response (or the
accumulator when there are no participants). -/
theorem composeSyncList_spec (jl : JLoads) (model : String) (ps : List Participant) :
    ∀ (curRef : Ref) (σ : Heap) (acc : Option ResponseObject) (c0 : String)
      (res : Option ResponseObject),
      noInjectList ps = true → curRef < σ.length →
      (σ.geti curRef).content = some c0 →
      (composeSyncList jl model ps curRef σ acc).out = .ok res →
      (composeSyncList jl model ps curRef σ acc).calls.map CallRec.pname =
        ps.map Participant.pname ∧
      (∀ k, k < (composeSyncList jl model ps curRef σ acc).calls.length →
        ((composeSyncList jl model ps curRef σ acc).calls.getD k defaultCallRec).msgIn.content =
          some (expectedContent c0 ((composeSyncList jl model ps curRef σ acc).calls.take k))) ∧
      (ps = [] → res = acc) ∧
      (ps ≠ [] → ∃ lastRec,
        (composeSyncList jl model ps curRef σ acc).calls.getLast? = some lastRec ∧
        res = some lastRec.resp) := by
  induction ps with
  | nil =>
    intro curRef σ acc c0 res hni hlt hc0 hok
    simp only [composeSyncList] at hok ⊢
    cases hok
    simp
  | cons p rest ih =>
    intro curRef σ acc c0 res hni hlt hc0 hok
    simp only [noInjectList, Bool.and_eq_true] at hni
    obtain ⟨hexc, hniall, hpn, hfl⟩ := runPart_frame jl model p curRef σ
    have hall := hniall hni.1
    have hgetcur : (runPart jl model p curRef σ).heap.geti curRef = σ.geti curRef :=
      hall.2 curRef hlt
    rw [composeSyncList] at hok ⊢
    dsimp only at hok ⊢
    split at hok
    · exact absurd hok (by simp)
    · exact absurd hok (by simp)
    · next resp hresp =>
      split at hok
      · exact absurd hok (by simp)
      · next curContent hcur =>
        rw [hgetcur, hc0] at hcur
        have hcc : curContent = c0 := by injection hcur with h; exact h.symm
        subst hcc
        simp only [hresp, hgetcur, hc0, Heap.alloc] at hok ⊢
        obtain ⟨ih1, ih2, ih3, ih4⟩ := ih (List.length (runPart jl model p curRef σ).heap)
          ((runPart jl model p curRef σ).heap ++
            [⟨"user", some (curContent ++ "\n\n" ++ p.pname ++ ": " ++ resp.content),
              none, []⟩])
          (some resp) (curContent ++ "\n\n" ++ p.pname ++ ": " ++ resp.content) res
          hni.2 (by simp) (by rw [Heap.geti_append_self]) hok
        refine ⟨by simp [ih1], ?_, by simp, ?_⟩
        · intro k hk
          match k with
          | 0 => simp [expectedContent, hc0]
          | Nat.succ k =>
            have hk2 : k < (composeSyncList jl model rest
                (List.length (runPart jl model p curRef σ).heap)
                ((runPart jl model p curRef σ).heap ++
                  [⟨"user", some (curContent ++ "\n\n" ++ p.pname ++ ": " ++ resp.content),
                    none, []⟩])
                (some resp)).calls.length := by
              simpa using hk
            have h2 := ih2 k hk2
            simp only [List.getD_cons_succ, List.take_succ_cons]
            simpa [expectedContent] using h2
        · intro _
          by_cases hre : rest = []
          · subst hre
            simp only [composeSyncList] at hok ⊢
            cases hok
            exact ⟨⟨p.pname, curRef, σ.geti curRef, (runPart jl model p curRef σ).viaSeq, resp⟩,
              by simp, rfl⟩
          · obtain ⟨lastRec, hl, hr⟩ := ih4 hre
            have hcne : (composeSyncList jl model rest
                (List.length (runPart jl model p curRef σ).heap)
                ((runPart jl model p curRef σ).heap ++
                  [⟨"user", some (curContent ++ "\n\n" ++ p.pname ++ ": " ++ resp.content),
                    none, []⟩])
                (some resp)).calls ≠ [] := by
              intro hc
              rw [hc] at ih1
              exact hre (by simpa using ih1.symm)
            rcases hcs : (composeSyncList jl model rest
                (List.length (runPart jl model p curRef σ).heap)
                ((runPart jl model p curRef σ).heap ++
                  [⟨"user", some (curContent ++ "\n\n" ++ p.pname ++ ": " ++ resp.content),
                    none, []⟩])
                (some resp)).calls with _ | ⟨c1, cs⟩
            · exact absurd hcs hcne
            · rw [hcs] at hl
              exact ⟨lastRec, by rw [hcs, List.getLast?_cons_cons]; exact hl, hr⟩

/-- The state of the outgoing message object after `_prepare_message`: its
content gains the schema instruction exactly when injection applies. -/
theorem prepare_message_heap_char (a : AgentState) (σ : Heap) (mref : Ref)
    (role0 s : String) (tci : Option String) (tcl : List ToolCall)
    (hmsg : σ.geti mref = ⟨role0, some s, tci, tcl⟩) (hlt : mref < σ.length) :
    (prepare_message a σ mref).2.geti mref =
      ⟨role0, some (if a.injects then s ++ jsonInstruction a else s), tci, tcl⟩ := by
  unfold prepare_message
  dsimp only
  by_cases hi : a.injects
  · simp [hi, hmsg, Heap.geti_seti_self _ _ _ hlt]
  · simp [hi, hmsg]

/-- The prepared agent, spelled through `updSchemas`. -/
theorem send_prepared_agent (a : AgentState) (fs : Option (List String))
    (σ : Heap) (mref : Ref) :
    ∃ fs0, (prepare_message (updSchemas a fs) σ mref).1 =
      { a with function_schemas := fs0, messages := a.messages ++ [mref] } := by
  obtain ⟨fs0, hupd⟩ := updSchemas_spec a fs
  exact ⟨fs0, by rw [prepare_message_agent, hupd]⟩

/-- Claim C9: a `send_message` call with an empty model raises the
missing-model `ValueError`, but only after the outgoing message (with any
structured-mode instruction already injected into its content) has been
appended to the transcript — the session state is mutated despite the
failure. -/
theorem c9_send_empty_model_mutates (jl : JLoads) (a : AgentState) (σ : Heap)
    (mref : Ref) (fs : Option (List String)) (role0 s : String)
    (tci : Option String) (tcl : List ToolCall)
    (hmsg : σ.geti mref = ⟨role0, some s, tci, tcl⟩) (hlt : mref < σ.length) :
    (send_message jl a σ "" mref fs).out = .error (.valueError "Model not specified") ∧
    (send_message jl a σ "" mref fs).agent.messages = a.messages ++ [mref] ∧
    (send_message jl a σ "" mref fs).heap.geti mref =
      ⟨role0, some (if a.injects then s ++ jsonInstruction a else s), tci, tcl⟩ := by
  obtain ⟨fs0, hp⟩ := send_prepared_agent a fs σ mref
  obtain ⟨fs1, hupd⟩ := updSchemas_spec a fs
  have hheap : (prepare_message (updSchemas a fs) σ mref).2 = (prepare_message a σ mref).2 := by
    rw [hupd]
    exact prepare_message_heap_congr a fs1 σ mref
  have hsend : send_message jl a σ "" mref fs =
      validate_and_dispatch jl (prepare_message (updSchemas a fs) σ mref).1
        (prepare_message (updSchemas a fs) σ mref).2 "" := rfl
  have hred : validate_and_dispatch jl (prepare_message (updSchemas a fs) σ mref).1
      (prepare_message (updSchemas a fs) σ mref).2 "" =
      ⟨.error (.valueError "Model not specified"),
        (prepare_message (updSchemas a fs) σ mref).1,
        (prepare_message (updSchemas a fs) σ mref).2, 0⟩ := by
    rw [validate_and_dispatch]
    simp
  rw [hsend, hred]
  refine ⟨rfl, ?_, ?_⟩
  · rw [hp]
  · rw [show (⟨.error (.valueError "Model not specified"),
        (prepare_message (updSchemas a fs) σ mref).1,
        (prepare_message (updSchemas a fs) σ mref).2, 0⟩ : SendRes).heap =
        (prepare_message (updSchemas a fs) σ mref).2 from rfl, hheap]
    exact prepare_message_heap_char a σ mref role0 s tci tcl hmsg hlt

/-- Witness for C9 at a concrete structured-mode session and message. -/
theorem c9_witness :
    (send_message jlId (mkJsonAgent "A") [⟨"user", some "hi", none, []⟩] "" 0 none).out =
      .error (.valueError "Model not specified") ∧
    (send_message jlId (mkJsonAgent "A") [⟨"user", some "hi", none, []⟩] "" 0 none).agent.messages =
      (mkJsonAgent "A").messages ++ [0] ∧
    (send_message jlId (mkJsonAgent "A") [⟨"user", some "hi", none, []⟩] "" 0 none).heap.geti 0 =
      ⟨"user", some (if (mkJsonAgent "A").injects then
        "hi" ++ jsonInstruction (mkJsonAgent "A") else "hi"), none, []⟩ :=
  c9_send_empty_model_mutates jlId (mkJsonAgent "A") [⟨"user", some "hi", none, []⟩]
    0 none "user" "hi" none [] rfl (by decide)

/-- Claim C3 (amended): for an Anthropic-bound session in structured mode
whose raw reply fails to parse, `send_message` raises the malformed-response
`ValueError`, and at that moment the transcript contains the outgoing user
message but NOT the raw assistant reply: the raise happens before any
assistant message is appended (the raw reply is discarded), and no message
object is created after `_prepare_message`. -/
theorem c3_anthropic_raw_not_appended (jl : JLoads) (a : AgentState) (σ : Heap)
    (model : String) (mref : Ref) (fs : Option (List String)) (c : Client)
    (hcl : a.client = some c) (hkind : c.kind = ClientKind.anthropic)
    (hjm : a.json_mode = true) (hmodel : (model == "") = false)
    (havail : c.models.contains model = true)
    (hparse : jl (c.reply (derefAll (prepare_message a σ mref).2
      (a.messages ++ [mref]))) = none) :
    (send_message jl a σ model mref fs).out =
      .error (.valueError "Response is not in valid JSON format") ∧
    (send_message jl a σ model mref fs).agent.messages = a.messages ++ [mref] ∧
    (send_message jl a σ model mref fs).heap = (prepare_message a σ mref).2 := by
  obtain ⟨fs0, hp⟩ := send_prepared_agent a fs σ mref
  obtain ⟨fs1, hupd⟩ := updSchemas_spec a fs
  have hheap : (prepare_message (updSchemas a fs) σ mref).2 =
      (prepare_message a σ mref).2 := by
    rw [hupd]
    exact prepare_message_heap_congr a fs1 σ mref
  have hsend : send_message jl a σ model mref fs =
      validate_and_dispatch jl (prepare_message (updSchemas a fs) σ mref).1
        (prepare_message (updSchemas a fs) σ mref).2 model := rfl
  rw [hsend, hp, hheap]
  rw [validate_and_dispatch]
  simp only [hmodel, Bool.false_eq_true, if_false, hcl, hkind]
  rw [handle_anthropic_chat]
  simp only [havail, Bool.not_true, Bool.false_eq_true, if_false, hjm, if_true, hparse]
  simp

/-- Counterexample to C3 as stated: at this concrete Anthropic structured-mode
session the parse failure raises, yet the transcript holds only the injected
user message — the raw (unparsed) assistant reply was never appended. -/
theorem c3_counterexample :
    (send_message jlNone (mkJsonAgent "A") [⟨"user", some "hi", none, []⟩] "m1" 0 none).out =
      .error (.valueError "Response is not in valid JSON format") ∧
    derefAll (send_message jlNone (mkJsonAgent "A") [⟨"user", some "hi", none, []⟩] "m1" 0 none).heap
      (send_message jlNone (mkJsonAgent "A") [⟨"user", some "hi", none, []⟩] "m1" 0 none).agent.messages =
      [⟨"user", some ("hi" ++ jsonInstruction (mkJsonAgent "A")), none, []⟩] := by
  decide

/-- Witness for the amended C3 at a concrete session. -/
theorem c3_witness :
    (send_message jlNone (mkJsonAgent "B") [⟨"user", some "q", none, []⟩] "m1" 0 none).out =
      .error (.valueError "Response is not in valid JSON format") ∧
    (send_message jlNone (mkJsonAgent "B") [⟨"user", some "q", none, []⟩] "m1" 0 none).agent.messages =
      (mkJsonAgent "B").messages ++ [0] ∧
    (send_message jlNone (mkJsonAgent "B") [⟨"user", some "q", none, []⟩] "m1" 0 none).heap =
      (prepare_message (mkJsonAgent "B") [⟨"user", some "q", none, []⟩] 0).2 :=
  c3_anthropic_raw_not_appended jlNone (mkJsonAgent "B") [⟨"user", some "q", none, []⟩]
    "m1" 0 none okClient rfl rfl rfl (by decide) (by decide) rfl

/-- Claim C5 (amended): for any unrecognized mode, `Fleet.compose` raises the
invalid-mode `ValueError` without invoking any participant and without
touching any state; the error message is the fixed string `invalidModeMsg`,
which does not depend on (and in general does not include) the offending mode
value. -/
theorem c5_invalid_mode (jl : JLoads) (model : String) (sched : List Nat)
    (f : Fleet) (mref : Ref) (σ : Heap) (mode : String)
    (h1 : mode ≠ "synchronously") (h2 : mode ≠ "asynchronously") :
    (Fleet.compose jl model sched f mref σ mode).out =
      .error (.valueError invalidModeMsg) ∧
    (Fleet.compose jl model sched f mref σ mode).parts = f.agents_or_composers ∧
    (Fleet.compose jl model sched f mref σ mode).heap = σ ∧
    (Fleet.compose jl model sched f mref σ mode).calls = [] ∧
    (Fleet.compose jl model sched f mref σ mode).recs = [] := by
  have hb1 : (mode == "synchronously") = false := by
    simpa using h1
  have hb2 : (mode == "asynchronously") = false := by
    simpa using h2
  rw [Fleet.compose]
  simp [hb1, hb2]

/-- Counterexample to C5 as stated: composing with `mode = "parallel"` raises
the invalid-mode error, but its message is the fixed string, which does not
contain the offending value `"parallel"`. -/
theorem c5_counterexample :
    (Fleet.compose jlId "m1" [0] ⟨[.agent (mkPlainAgent "A")], "F", "", false⟩
        0 [⟨"user", some "hi", none, []⟩] "parallel").out =
      .error (.valueError invalidModeMsg) ∧
    (Fleet.compose jlId "m1" [0] ⟨[.agent (mkPlainAgent "A")], "F", "", false⟩
        0 [⟨"user", some "hi", none, []⟩] "parallel").calls = [] ∧
    (Fleet.compose jlId "m1" [0] ⟨[.agent (mkPlainAgent "A")], "F", "", false⟩
        0 [⟨"user", some "hi", none, []⟩] "parallel").recs = [] ∧
    strContains invalidModeMsg "parallel" = false := by
  refine ⟨rfl, rfl, rfl, by decide⟩

/-- Witness for the amended C5 at the concrete mode `"parallel"`. -/
theorem c5_witness :
    (Fleet.compose jlId "m1" [0] ⟨[.agent (mkPlainAgent "B")], "F", "", false⟩
        0 [⟨"user", some "hi", none, []⟩] "parallel").out =
      .error (.valueError invalidModeMsg) ∧
    (Fleet.compose jlId "m1" [0] ⟨[.agent (mkPlainAgent "B")], "F", "", false⟩
        0 [⟨"user", some "hi", none, []⟩] "parallel").parts =
      [.agent (mkPlainAgent "B")] ∧
    (Fleet.compose jlId "m1" [0] ⟨[.agent (mkPlainAgent "B")], "F", "", false⟩
        0 [⟨"user", some "hi", none, []⟩] "parallel").heap =
      [⟨"user", some "hi", none, []⟩] ∧
    (Fleet.compose jlId "m1" [0] ⟨[.agent (mkPlainAgent "B")], "F", "", false⟩
        0 [⟨"user", some "hi", none, []⟩] "parallel").calls = [] ∧
    (Fleet.compose jlId "m1" [0] ⟨[.agent (mkPlainAgent "B")], "F", "", false⟩
        0 [⟨"user", some "hi", none, []⟩] "parallel").recs = [] :=
  c5_invalid_mode jlId "m1" [0] ⟨[.agent (mkPlainAgent "B")], "F", "", false⟩
    0 [⟨"user", some "hi", none, []⟩] "parallel" (by decide) (by decide)

/-- Claim C4 (amended): the synthesis step's client selection descends exactly
ONE nesting level, not recursively: the first participant's client if it is an
agent, else the client of the first participant of the first nested fleet;
when that first nested participant is itself a fleet, the lookup raises
`AttributeError` (and the whole synthesis step fails with it), even though a
deeper leaf may hold a bound adapter.  No `NoAdapterAvailable` check exists:
an agent with an unbound (`None`) client is selected as `.ok none` rather
than rejected. -/
theorem c4_synth_client_one_level (jl : JLoads) (model desc : String)
    (responses : List (Option ResponseObject)) (σ : Heap) (ps : List Participant) :
    (∀ a rest, ps = .agent a :: rest → synthClient ps = .ok a.client) ∧
    (∀ n d sy a inner rest, ps = .fleet n d sy (.agent a :: inner) :: rest →
      synthClient ps = .ok a.client) ∧
    (∀ n d sy n2 d2 sy2 qs inner rest,
      ps = .fleet n d sy (.fleet n2 d2 sy2 qs :: inner) :: rest →
      synthClient ps =
        .error (.attributeError "\x27Fleet\x27 object has no attribute \x27client\x27")) ∧
    (∀ n d sy n2 d2 sy2 qs inner rest fmt,
      ps = .fleet n d sy (.fleet n2 d2 sy2 qs :: inner) :: rest →
      format_agent_responses ps responses = .ok fmt →
      (synthesize_responses jl model desc ps responses σ).1 =
        .error (.attributeError "\x27Fleet\x27 object has no attribute \x27client\x27")) := by
  have hc : ∀ n d sy n2 d2 sy2 qs inner rest,
      ps = .fleet n d sy (.fleet n2 d2 sy2 qs :: inner) :: rest →
      synthClient ps =
        .error (.attributeError "\x27Fleet\x27 object has no attribute \x27client\x27") := by
    rintro n d sy n2 d2 sy2 qs inner rest rfl
    rcases h : (Participant.fleet n d sy (Participant.fleet n2 d2 sy2 qs :: inner)
        :: rest).all Participant.isFleet with _ | _
    · simp [synthClient, h]
    · simp [synthClient, h]
  refine ⟨?_, ?_, hc, ?_⟩
  · rintro a rest rfl
    simp [synthClient, Participant.isFleet]
  · rintro n d sy a inner rest rfl
    rcases h : (Participant.fleet n d sy (Participant.agent a :: inner)
        :: rest).all Participant.isFleet with _ | _
    · simp [synthClient, h]
    · simp [synthClient, h]
  · rintro n d sy n2 d2 sy2 qs inner rest fmt hps hfmt
    rw [synthesize_responses, hfmt, hc n d sy n2 d2 sy2 qs inner rest hps]

/-- Counterexample to C4 as stated: the first available leaf participant (two
levels down) is bound to an adapter, yet synthesis neither locates it nor
raises `NoAdapterAvailable` — it fails with `AttributeError` because the
lookup only descends one level. -/
theorem c4_counterexample :
    (synthesize_responses jlId "m1" "goal"
        [.fleet "F1" "" true [.fleet "F2" "" true [.agent (mkPlainAgent "L")]]]
        [some ⟨"x", 1, 2⟩] []).1 =
      .error (.attributeError "\x27Fleet\x27 object has no attribute \x27client\x27") := by
  decide

/-- Witness for the amended C4: instantiation of the one-level selection at a
concrete doubly nested fleet. -/
theorem c4_witness :
    synthClient [.fleet "G1" "" true [.fleet "G2" "" true [.agent (mkPlainAgent "M")]]] =
      .error (.attributeError "\x27Fleet\x27 object has no attribute \x27client\x27") :=
  (c4_synth_client_one_level jlId "m1" "goal" [] []
      [.fleet "G1" "" true [.fleet "G2" "" true [.agent (mkPlainAgent "M")]]]).2.2.1
    "G1" "" true "G2" "" true [.agent (mkPlainAgent "M")] [] [] rfl

theorem prepare_message_heap_length (a : AgentState) (σ : Heap) (mref : Ref) :
    (prepare_message a σ mref).2.length = σ.length := by
  unfold prepare_message
  dsimp only
  split
  · split
    · exact Heap.length_seti σ mref _
    · rfl
  · rfl

/-- Whatever happens after the first participant of a sequential composition
runs, no message object existing at that point is mutated again: the rest of
the loop works on freshly allocated message objects. -/
theorem composeSyncList_cons_preserves (jl : JLoads) (model : String)
    (p : Participant) (rest : List Participant) (curRef : Ref) (σ : Heap)
    (acc : Option ResponseObject) :
    framePresAll (runPart jl model p curRef σ).heap
      (composeSyncList jl model (p :: rest) curRef σ acc).heap := by
  rw [composeSyncList]
  dsimp only
  split
  · exact framePresAll.refl _
  · exact framePresAll.refl _
  · next resp hresp =>
    split
    · exact framePresAll.refl _
    · next curContent hcur =>
      simp only [Heap.alloc]
      obtain ⟨hexc2, _⟩ := composeSyncList_frame jl model rest
        (runPart jl model p curRef σ).heap.length
        ((runPart jl model p curRef σ).heap ++
          [⟨"user", some (curContent ++ "\n\n" ++ p.pname ++ ": " ++ resp.content),
            none, []⟩]) (some resp)
      exact framePresExc.weaken_fresh (Nat.le_refl _)
        (framePresAll_alloc (runPart jl model p curRef σ).heap _) hexc2

/-- When the sequential loop records any completed call, the first record is
for the head participant and carries the caller's own message reference. -/
theorem composeSyncList_first_ref (jl : JLoads) (model : String)
    (p : Participant) (rest : List Participant) (curRef : Ref) (σ : Heap)
    (acc : Option ResponseObject) :
    (composeSyncList jl model (p :: rest) curRef σ acc).calls ≠ [] →
    ((composeSyncList jl model (p :: rest) curRef σ acc).calls.getD 0
        defaultCallRec).ref = curRef ∧
    ((composeSyncList jl model (p :: rest) curRef σ acc).calls.getD 0
        defaultCallRec).msgIn = σ.geti curRef := by
  rw [composeSyncList]
  dsimp only
  split
  · intro h
    exact absurd rfl h
  · intro h
    exact absurd rfl h
  · next resp hresp =>
    split
    · intro h
      exact absurd rfl h
    · next curContent hcur =>
      simp only [Heap.alloc]
      intro _
      exact ⟨rfl, rfl⟩

/-- Claim C10: for a structured-mode session whose system prompt does not
mention json, `send_message` mutates the caller-supplied message object in
place, appending the schema instruction to its content; and sequential
composition hands its first participant the caller's `initial_message` object
itself, so after `compose_synchronously` the caller's own message dictionary
carries the injected instruction. -/
theorem c10_inplace_mutation (jl : JLoads) (model : String) (σ : Heap)
    (mref : Ref) (fs : Option (List String)) (a : AgentState)
    (rest : List Participant) (nm d : String) (sy : Bool)
    (role0 s : String) (tci : Option String) (tcl : List ToolCall)
    (hinj : a.injects = true)
    (hmsg : σ.geti mref = ⟨role0, some s, tci, tcl⟩)
    (hlt : mref < σ.length) :
    (send_message jl a σ model mref fs).heap.geti mref =
      ⟨role0, some (s ++ jsonInstruction a), tci, tcl⟩ ∧
    (compose_synchronously jl model ⟨.agent a :: rest, nm, d, sy⟩ mref σ).heap.geti mref =
      ⟨role0, some (s ++ jsonInstruction a), tci, tcl⟩ ∧
    ((compose_synchronously jl model ⟨.agent a :: rest, nm, d, sy⟩ mref σ).calls ≠ [] →
      ((compose_synchronously jl model ⟨.agent a :: rest, nm, d, sy⟩ mref σ).calls.getD 0
          defaultCallRec).ref = mref) := by
  have hsendgeti : ∀ fs2 : Option (List String),
      (send_message jl a σ model mref fs2).heap.geti mref =
        ⟨role0, some (s ++ jsonInstruction a), tci, tcl⟩ := by
    intro fs2
    have hframe := send_message_frame jl a σ model mref fs2
    have hchar := prepare_message_heap_char a σ mref role0 s tci tcl hmsg hlt
    rw [hinj] at hchar
    simp only [if_true] at hchar
    have hlt2 : mref < (prepare_message a σ mref).2.length := by
      rw [prepare_message_heap_length]
      exact hlt
    rw [hframe.1.2 mref hlt2, hchar]
  refine ⟨hsendgeti fs, ?_, ?_⟩
  · have hpres := composeSyncList_cons_preserves jl model (.agent a) rest mref σ none
    have hrp : (runPart jl model (.agent a) mref σ).heap =
        (send_message jl a σ model mref a.function_schemas).heap := rfl
    have hlt3 : mref < (runPart jl model (.agent a) mref σ).heap.length := by
      rw [hrp]
      have h2 := (send_message_frame jl a σ model mref a.function_schemas).2.1.1
      exact Nat.lt_of_lt_of_le hlt h2
    have := hpres.2 mref hlt3
    rw [compose_synchronously]
    rw [this, hrp, hsendgeti a.function_schemas]
  · intro h
    exact ((composeSyncList_first_ref jl model (.agent a) rest mref σ none) h).1

/-- Witness for C10 at a concrete structured-mode agent and fleet. -/
theorem c10_witness :
    (send_message jlId (mkJsonAgent "A") [⟨"user", some "hi", none, []⟩] "m1" 0 none).heap.geti 0 =
      ⟨"user", some ("hi" ++ jsonInstruction (mkJsonAgent "A")), none, []⟩ ∧
    (compose_synchronously jlId "m1"
        ⟨[.agent (mkJsonAgent "A"), .agent (mkPlainAgent "B")], "F", "", false⟩
        0 [⟨"user", some "hi", none, []⟩]).heap.geti 0 =
      ⟨"user", some ("hi" ++ jsonInstruction (mkJsonAgent "A")), none, []⟩ ∧
    ((compose_synchronously jlId "m1"
        ⟨[.agent (mkJsonAgent "A"), .agent (mkPlainAgent "B")], "F", "", false⟩
        0 [⟨"user", some "hi", none, []⟩]).calls ≠ [] →
      ((compose_synchronously jlId "m1"
          ⟨[.agent (mkJsonAgent "A"), .agent (mkPlainAgent "B")], "F", "", false⟩
          0 [⟨"user", some "hi", none, []⟩]).calls.getD 0 defaultCallRec).ref = 0) :=
  c10_inplace_mutation jlId "m1" [⟨"user", some "hi", none, []⟩] 0 none
    (mkJsonAgent "A") [.agent (mkPlainAgent "B")] "F" "" false
    "user" "hi" none [] (by decide) rfl (by decide)

/-- One non-clear session operation preserves "the transcript is non-empty,
its first entry is `r0` for some live `r0`, and the object at `r0` is
unchanged". -/
theorem stepOp_preserves_head (jl : JLoads) (s : AgSt) (op : AgOp) (m0 : Message)
    (hop : op.isClear = false)
    (hInv : ∃ r0, s.agent.messages.head? = some r0 ∧ r0 < s.heap.length ∧
      s.heap.geti r0 = m0) :
    ∃ r0, (stepOp jl s op).agent.messages.head? = some r0 ∧
      r0 < (stepOp jl s op).heap.length ∧ (stepOp jl s op).heap.geti r0 = m0 := by
  obtain ⟨r0, hh, hl, hg⟩ := hInv
  rcases hmsg : s.agent.messages with _ | ⟨x, xs⟩
  · rw [hmsg] at hh
    exact absurd hh (by simp)
  · rw [hmsg] at hh
    have hx : x = r0 := by simpa using hh
    subst hx
    cases op with
    | add m =>
      refine ⟨x, ?_, ?_, ?_⟩
      · simp [stepOp, Heap.alloc, hmsg]
      · show x < ((s.heap.alloc m).2).length
        rw [Heap.length_alloc]
        exact Nat.lt_succ_of_lt hl
      · show ((s.heap.alloc m).2).geti x = m0
        rw [Heap.geti_alloc_lt s.heap m x hl]
        exact hg
    | clear => exact absurd hop (by simp [AgOp.isClear])
    | turn model m fs =>
      obtain ⟨_, hexc, _, t, ct, fs2, hagent⟩ :=
        send_message_frame jl s.agent (s.heap.alloc m).2 model (s.heap.alloc m).1 fs
      refine ⟨x, ?_, ?_, ?_⟩
      · simp only [stepOp]
        rw [hagent]
        simp [hmsg]
      · simp only [stepOp]
        have h1 : s.heap.length < ((s.heap.alloc m).2).length := by
          simp [Heap.length_alloc]
        exact Nat.lt_of_lt_of_le (Nat.lt_trans hl h1) hexc.1
      · simp only [stepOp]
        have hne : x ≠ (s.heap.alloc m).1 := Nat.ne_of_lt hl
        have h1 : x < ((s.heap.alloc m).2).length := by
          rw [Heap.length_alloc]
          exact Nat.lt_succ_of_lt hl
        rw [hexc.2 x h1 hne, Heap.geti_alloc_lt s.heap m x hl, hg]

/-- Claim C8 (amended): every public session operation either appends to the
transcript or wholly clears it (never reorders it); and as long as
`clear_messages` has NOT been invoked, the transcript of a freshly
constructed session stays non-empty with the system-prompt message first.
(After a clear, the system message is not restored — see the
counterexample.) -/
theorem c8_transcript_invariant (jl : JLoads) :
    (∀ (s : AgSt) (op : AgOp), (stepOp jl s op).agent.messages = [] ∨
      ∃ t, (stepOp jl s op).agent.messages = s.agent.messages ++ t) ∧
    (∀ (cl : Option Client) (sp nm : String) (σ0 : Heap) (ops : List AgOp),
      ops.all (fun op => !op.isClear) = true →
      ∃ r0, (runOps jl (initAgSt cl sp nm σ0) ops).agent.messages.head? = some r0 ∧
        (runOps jl (initAgSt cl sp nm σ0) ops).heap.geti r0 =
          ⟨"system", some sp, none, []⟩) := by
  constructor
  · intro s op
    cases op with
    | add m => exact Or.inr ⟨[s.heap.length], by simp [stepOp, Heap.alloc]⟩
    | clear => exact Or.inl rfl
    | turn model m fs =>
      obtain ⟨_, _, _, t, ct, fs2, hagent⟩ :=
        send_message_frame jl s.agent (s.heap.alloc m).2 model (s.heap.alloc m).1 fs
      refine Or.inr ⟨(s.heap.alloc m).1 :: t, ?_⟩
      simp only [stepOp]
      rw [hagent]
  · intro cl sp nm σ0 ops hnc
    have main : ∀ (ops : List AgOp), ops.all (fun op => !op.isClear) = true →
        ∀ (s : AgSt), (∃ r0, s.agent.messages.head? = some r0 ∧ r0 < s.heap.length ∧
          s.heap.geti r0 = ⟨"system", some sp, none, []⟩) →
        ∃ r0, (runOps jl s ops).agent.messages.head? = some r0 ∧
          r0 < (runOps jl s ops).heap.length ∧
          (runOps jl s ops).heap.geti r0 = ⟨"system", some sp, none, []⟩ := by
      intro ops
      induction ops with
      | nil => exact fun _ s hInv => hInv
      | cons op rest ih =>
        intro hnc s hInv
        simp only [List.all_cons, Bool.and_eq_true, Bool.not_eq_true'] at hnc
        exact ih (by simp [hnc.2]) (stepOp jl s op)
          (stepOp_preserves_head jl s op _ hnc.1 hInv)
    obtain ⟨r0, h1, _, h3⟩ := main ops hnc (initAgSt cl sp nm σ0)
      ⟨σ0.length, by simp [initAgSt, Agent.init, Heap.alloc],
        by simp [initAgSt, Agent.init, Heap.length_alloc],
        by simpa [initAgSt, Agent.init] using Heap.geti_append_self σ0 _⟩
    exact ⟨r0, h1, h3⟩

/-- Counterexample to C8 as stated: after `clear_messages` followed by
`add_message` of a user message, the transcript is non-empty but its first
message is the user message, not the system-role message. -/
theorem c8_counterexample :
    (runOps jlId (initAgSt (some okClient) "You are a helpful assistant." "A" [])
        [.clear, .add ⟨"user", some "hi", none, []⟩]).agent.messages ≠ [] ∧
    ((runOps jlId (initAgSt (some okClient) "You are a helpful assistant." "A" [])
        [.clear, .add ⟨"user", some "hi", none, []⟩]).heap.geti
      ((runOps jlId (initAgSt (some okClient) "You are a helpful assistant." "A" [])
        [.clear, .add ⟨"user", some "hi", none, []⟩]).agent.messages.getD 0 0)).role =
      "user" := by
  decide

/-- Witness for the amended C8: a concrete clear-free operation sequence keeps
the system message first. -/
theorem c8_witness :
    ∃ r0, (runOps jlId (initAgSt (some okClient) "You are a helpful assistant." "W"
        [])
        [.add ⟨"user", some "hi", none, []⟩, .turn "m1" ⟨"user", some "go", none, []⟩ none]).agent.messages.head? = some r0 ∧
      (runOps jlId (initAgSt (some okClient) "You are a helpful assistant." "W" [])
        [.add ⟨"user", some "hi", none, []⟩, .turn "m1" ⟨"user", some "go", none, []⟩ none]).heap.geti r0 =
        ⟨"system", some "You are a helpful assistant.", none, []⟩ :=
  (c8_transcript_invariant jlId).2 (some okClient) "You are a helpful assistant." "W" []
    [.add ⟨"user", some "hi", none, []⟩, .turn "m1" ⟨"user", some "go", none, []⟩ none]
    (by decide)


theorem Heap.geti_append_lt (σ t : Heap) (i : Ref) (h : i < σ.length) :
    Heap.geti (σ ++ t) i = σ.geti i := by
  simp [Heap.geti, List.getD, List.getElem?_append_left h]

theorem handle_openai_unknown_tool (jl : JLoads) (c : Client) (b : AgentState)
    (σ1 : Heap) (model : String) (tc : ToolCall) (args : String)
    (reg : List (String × (String → String)))
    (havail : c.models.contains model = true)
    (htc : c.tool_calls (derefAll σ1 b.messages) = [tc])
    (htype : tc.type = "function")
    (hargs : jl tc.function_arguments = some args)
    (hreg : b.functions = some reg)
    (hlook : reg.lookup tc.function_name = none) :
    (handle_openai_chat jl c b σ1 model).out =
      .ok ⟨c.reply (derefAll
            (σ1 ++ [⟨"assistant", none, none, [tc]⟩,
              ⟨"tool", some (unknownToolPayload tc.function_name), some tc.id, []⟩])
            (b.messages ++ [σ1.length, σ1.length + 1])),
          c.input_tokens (derefAll σ1 b.messages),
          c.output_tokens (derefAll σ1 b.messages)⟩ ∧
    (handle_openai_chat jl c b σ1 model).completions = 2 ∧
    (handle_openai_chat jl c b σ1 model).agent.messages =
      b.messages ++ [σ1.length, σ1.length + 1, σ1.length + 2] ∧
    (handle_openai_chat jl c b σ1 model).heap.geti (σ1.length + 1) =
      ⟨"tool", some (unknownToolPayload tc.function_name), some tc.id, []⟩ := by
  rw [handle_openai_chat]
  simp only [havail, Bool.not_true, Bool.false_eq_true, if_false, htc]
  rw [runToolCalls]
  simp only [htype, beq_self_eq_true, if_true]
  rw [process_single_function_call]
  simp only [hargs, hreg, hlook, Heap.alloc]
  rw [runToolCalls]
  dsimp only
  rw [addAssistantAndRespond]
  simp only [Heap.alloc]
  refine ⟨?_, ?_, ?_, ?_⟩
  · simp [List.append_assoc]
  · trivial
  · simp [List.append_assoc]
  · rw [Heap.geti_append_lt _ _ _ (by simp)]
    rw [show σ1.length + 1 =
      (σ1 ++ [(⟨"assistant", none, none, [tc]⟩ : Message)]).length by simp]
    exact Heap.geti_append_self _ _

theorem isPrefixOf_append_self (l t : List Char) : l.isPrefixOf (l ++ t) = true := by
  induction l with
  | nil => simp [List.isPrefixOf]
  | cons x xs ih => simp [List.isPrefixOf, ih]

/-- Any string of the form `x ++ (nm ++ y)` contains `nm` as a substring. -/
theorem strContains_append (x nm y : String) : strContains (x ++ (nm ++ y)) nm = true := by
  unfold strContains
  rw [List.any_eq_true]
  refine ⟨x.length, ?_, ?_⟩
  · rw [List.mem_range, String.length_append, String.length_append]
    omega
  · rw [String.data_append, String.data_append]
    rw [show x.length = x.data.length from rfl, List.drop_left]
    exact isPrefixOf_append_self nm.data y.data

/-- The unknown-tool payload mentions the missing tool's name. -/
theorem unknownToolPayload_mentions (nm : String) :
    strContains (unknownToolPayload nm) nm = true := by
  unfold unknownToolPayload
  have h := strContains_append "\x7b\x22error\x22: \x22Function \x27" nm "\x27 not found\x22\x7d"
  simpa using h

/-- Claim C6: when the adapter requests a call to a tool name missing from
the session's (present) tool registry, the turn does not raise: a tool-role
message whose content is the JSON error payload mentioning the missing name
is appended to the transcript, exactly one follow-up completion (the second
of the turn's two) is issued on the extended transcript, and its reply is
returned as the turn's Response. -/
theorem c6_unknown_tool (jl : JLoads) (a : AgentState) (σ : Heap) (model : String)
    (mref : Ref) (fs : Option (List String)) (c : Client) (tc : ToolCall)
    (args : String) (reg : List (String × (String → String)))
    (hcl : a.client = some c) (hkind : c.kind = ClientKind.openai)
    (hmodel : (model == "") = false)
    (havail : c.models.contains model = true)
    (htc : c.tool_calls (derefAll (prepare_message a σ mref).2
      (a.messages ++ [mref])) = [tc])
    (htype : tc.type = "function")
    (hargs : jl tc.function_arguments = some args)
    (hreg : a.functions = some reg)
    (hlook : reg.lookup tc.function_name = none) :
    (send_message jl a σ model mref fs).out =
      .ok ⟨c.reply (derefAll
            ((prepare_message a σ mref).2 ++ [⟨"assistant", none, none, [tc]⟩,
              ⟨"tool", some (unknownToolPayload tc.function_name), some tc.id, []⟩])
            ((a.messages ++ [mref]) ++ [(prepare_message a σ mref).2.length,
              (prepare_message a σ mref).2.length + 1])),
          c.input_tokens (derefAll (prepare_message a σ mref).2 (a.messages ++ [mref])),
          c.output_tokens (derefAll (prepare_message a σ mref).2 (a.messages ++ [mref]))⟩ ∧
    (send_message jl a σ model mref fs).completions = 2 ∧
    (send_message jl a σ model mref fs).agent.messages =
      (a.messages ++ [mref]) ++ [(prepare_message a σ mref).2.length,
        (prepare_message a σ mref).2.length + 1,
        (prepare_message a σ mref).2.length + 2] ∧
    (send_message jl a σ model mref fs).heap.geti
        ((prepare_message a σ mref).2.length + 1) =
      ⟨"tool", some (unknownToolPayload tc.function_name), some tc.id, []⟩ ∧
    strContains (unknownToolPayload tc.function_name) tc.function_name = true := by
  obtain ⟨fs0, hp⟩ := send_prepared_agent a fs σ mref
  obtain ⟨fs1, hupd⟩ := updSchemas_spec a fs
  have hheap : (prepare_message (updSchemas a fs) σ mref).2 =
      (prepare_message a σ mref).2 := by
    rw [hupd]
    exact prepare_message_heap_congr a fs1 σ mref
  have hsend : send_message jl a σ model mref fs =
      validate_and_dispatch jl (prepare_message (updSchemas a fs) σ mref).1
        (prepare_message (updSchemas a fs) σ mref).2 model := rfl
  rw [hsend, hp, hheap]
  rw [validate_and_dispatch]
  simp only [hmodel, Bool.false_eq_true, if_false, hcl, hkind]
  have H := handle_openai_unknown_tool jl c
    ({ a with client := some c, function_schemas := fs0, messages := a.messages ++ [mref] } : AgentState)
    (prepare_message a σ mref).2 model tc args reg havail
    (by simpa using htc) htype hargs (by simpa using hreg) hlook
  refine ⟨by simpa using H.1, H.2.1, by simpa using H.2.2.1, H.2.2.2,
    unknownToolPayload_mentions tc.function_name⟩

/-- Witness for C6 at a concrete session whose registry lacks `subtract`. -/
theorem c6_witness :
    (send_message jlId toolAgent [⟨"user", some "hi", none, []⟩] "m1" 0 none).out =
      .ok ⟨openaiToolClient.reply (derefAll
            ((prepare_message toolAgent [⟨"user", some "hi", none, []⟩] 0).2 ++
              [⟨"assistant", none, none, [toolCallSub]⟩,
               ⟨"tool", some (unknownToolPayload toolCallSub.function_name),
                 some toolCallSub.id, []⟩])
            ((toolAgent.messages ++ [0]) ++
              [(prepare_message toolAgent [⟨"user", some "hi", none, []⟩] 0).2.length,
               (prepare_message toolAgent [⟨"user", some "hi", none, []⟩] 0).2.length + 1])),
          openaiToolClient.input_tokens (derefAll
            (prepare_message toolAgent [⟨"user", some "hi", none, []⟩] 0).2
            (toolAgent.messages ++ [0])),
          openaiToolClient.output_tokens (derefAll
            (prepare_message toolAgent [⟨"user", some "hi", none, []⟩] 0).2
            (toolAgent.messages ++ [0]))⟩ ∧
    (send_message jlId toolAgent [⟨"user", some "hi", none, []⟩] "m1" 0 none).completions = 2 ∧
    (send_message jlId toolAgent [⟨"user", some "hi", none, []⟩] "m1" 0 none).agent.messages =
      (toolAgent.messages ++ [0]) ++
        [(prepare_message toolAgent [⟨"user", some "hi", none, []⟩] 0).2.length,
         (prepare_message toolAgent [⟨"user", some "hi", none, []⟩] 0).2.length + 1,
         (prepare_message toolAgent [⟨"user", some "hi", none, []⟩] 0).2.length + 2] ∧
    (send_message jlId toolAgent [⟨"user", some "hi", none, []⟩] "m1" 0 none).heap.geti
        ((prepare_message toolAgent [⟨"user", some "hi", none, []⟩] 0).2.length + 1) =
      ⟨"tool", some (unknownToolPayload toolCallSub.function_name), some toolCallSub.id, []⟩ ∧
    strContains (unknownToolPayload toolCallSub.function_name) toolCallSub.function_name = true :=
  c6_unknown_tool jlId toolAgent [⟨"user", some "hi", none, []⟩] "m1" 0 none
    openaiToolClient toolCallSub toolCallSub.function_arguments
    [("add", fun args => args)]
    rfl rfl rfl rfl rfl rfl rfl rfl rfl

/-- Claim C1 (amended): for a sequential fleet none of whose reachable leaf
sessions performs structured-output injection, a successful
`compose_synchronously` run invokes each declared participant exactly once in
declared order; the message handed to the k-th participant carries the
initial message's content followed by the labeled excerpts
`"\n\n{name_j}: {content_j}"` of the prior participants in order; and the
returned Response is the one produced by the last participant.  (With
injection on, the schema instruction is interposed into the running content —
see the counterexample.) -/
theorem c1_sequential_pipeline (jl : JLoads) (model : String) (f : Fleet)
    (mref : Ref) (σ : Heap) (c0 : String) (res : Option ResponseObject)
    (hni : noInjectList f.agents_or_composers = true)
    (hlt : mref < σ.length)
    (hc0 : (σ.geti mref).content = some c0)
    (hne : f.agents_or_composers ≠ [])
    (hok : (compose_synchronously jl model f mref σ).out = .ok res) :
    (compose_synchronously jl model f mref σ).calls.map CallRec.pname =
      f.agents_or_composers.map Participant.pname ∧
    (∀ k, k < (compose_synchronously jl model f mref σ).calls.length →
      ((compose_synchronously jl model f mref σ).calls.getD k defaultCallRec).msgIn.content =
        some (expectedContent c0 ((compose_synchronously jl model f mref σ).calls.take k))) ∧
    ∃ lastRec, (compose_synchronously jl model f mref σ).calls.getLast? = some lastRec ∧
      res = some lastRec.resp := by
  have h := composeSyncList_spec jl model f.agents_or_composers mref σ none c0 res
    hni hlt hc0 hok
  exact ⟨h.1, h.2.1, h.2.2.2 hne⟩

/-- Counterexample to C1 as stated: with a structured-mode first participant,
the second participant's message content is NOT the initial content plus the
labeled excerpt — the schema instruction injected in place by the first
participant is interposed. -/
theorem c1_counterexample :
    (compose_synchronously jlId "m1"
        ⟨[.agent (mkJsonAgent "A"), .agent (mkPlainAgent "B")], "F", "", false⟩
        0 [⟨"user", some "hi", none, []⟩]).out = .ok (some ⟨"ok", 1, 2⟩) ∧
    (compose_synchronously jlId "m1"
        ⟨[.agent (mkJsonAgent "A"), .agent (mkPlainAgent "B")], "F", "", false⟩
        0 [⟨"user", some "hi", none, []⟩]).calls.length = 2 ∧
    ((compose_synchronously jlId "m1"
        ⟨[.agent (mkJsonAgent "A"), .agent (mkPlainAgent "B")], "F", "", false⟩
        0 [⟨"user", some "hi", none, []⟩]).calls.getD 1 defaultCallRec).msgIn.content ≠
      some ("hi" ++ "\n\n" ++ "A" ++ ": " ++ "ok") ∧
    ((compose_synchronously jlId "m1"
        ⟨[.agent (mkJsonAgent "A"), .agent (mkPlainAgent "B")], "F", "", false⟩
        0 [⟨"user", some "hi", none, []⟩]).calls.getD 1 defaultCallRec).msgIn.content =
      some ("hi" ++ jsonInstruction (mkJsonAgent "A") ++ "\n\n" ++ "A" ++ ": " ++ "ok") := by
  decide

/-- Witness for the amended C1 on a three-stage fleet containing a nested
fleet. -/
theorem c1_witness :
    (compose_synchronously jlId "m1"
        ⟨[.agent (mkPlainAgent "A"), .fleet "N" "" true [.agent (mkPlainAgent "C")],
          .agent (mkPlainAgent "B")], "F", "", false⟩
        0 [⟨"user", some "hi", none, []⟩]).calls.map CallRec.pname =
      [Participant.agent (mkPlainAgent "A"),
        Participant.fleet "N" "" true [.agent (mkPlainAgent "C")],
        Participant.agent (mkPlainAgent "B")].map Participant.pname ∧
    (∀ k, k < (compose_synchronously jlId "m1"
        ⟨[.agent (mkPlainAgent "A"), .fleet "N" "" true [.agent (mkPlainAgent "C")],
          .agent (mkPlainAgent "B")], "F", "", false⟩
        0 [⟨"user", some "hi", none, []⟩]).calls.length →
      ((compose_synchronously jlId "m1"
        ⟨[.agent (mkPlainAgent "A"), .fleet "N" "" true [.agent (mkPlainAgent "C")],
          .agent (mkPlainAgent "B")], "F", "", false⟩
        0 [⟨"user", some "hi", none, []⟩]).calls.getD k defaultCallRec).msgIn.content =
        some (expectedContent "hi" ((compose_synchronously jlId "m1"
          ⟨[.agent (mkPlainAgent "A"), .fleet "N" "" true [.agent (mkPlainAgent "C")],
            .agent (mkPlainAgent "B")], "F", "", false⟩
          0 [⟨"user", some "hi", none, []⟩]).calls.take k))) ∧
    ∃ lastRec, (compose_synchronously jlId "m1"
        ⟨[.agent (mkPlainAgent "A"), .fleet "N" "" true [.agent (mkPlainAgent "C")],
          .agent (mkPlainAgent "B")], "F", "", false⟩
        0 [⟨"user", some "hi", none, []⟩]).calls.getLast? = some lastRec ∧
      some ⟨"ok", 1, 2⟩ = some lastRec.resp :=
  c1_sequential_pipeline jlId "m1"
    ⟨[.agent (mkPlainAgent "A"), .fleet "N" "" true [.agent (mkPlainAgent "C")],
      .agent (mkPlainAgent "B")], "F", "", false⟩
    0 [⟨"user", some "hi", none, []⟩] "hi" (some ⟨"ok", 1, 2⟩)
    (by decide) (by decide) rfl (by simp) (by decide)

theorem list_set_get_self {α : Type} (l : List α) (i : Nat) (h : i < l.length) :
    l.set i (l.get ⟨i, h⟩) = l := by
  apply List.ext_getElem?
  intro n
  by_cases hn : n = i
  · subst hn
    simp [List.getElem?_set, h, List.getElem?_eq_getElem h]
  · simp [List.getElem?_set, hn, Ne.symm hn]

theorem map_set_preserve {α β : Type} (l : List α) (i : Nat) (x : α) (f : α → β)
    (h : ∀ hi : i < l.length, f x = f (l.get ⟨i, hi⟩)) :
    (l.set i x).map f = l.map f := by
  by_cases hi : i < l.length
  · rw [List.map_set]
    have hfx : f x = (l.map f).get ⟨i, by simpa using hi⟩ := by
      rw [h hi]
      simp
    rw [hfx]
    exact list_set_get_self (l.map f) i (by simpa using hi)
  · rw [List.set_eq_of_length_le (by omega)]

/-- The branch flag returned by `runPart` records exactly whether the nested
fleet (sequential-composition) branch ran. -/
theorem runPart_viaSeq (jl : JLoads) (model : String) (p : Participant)
    (mref : Ref) (σ : Heap) :
    (runPart jl model p mref σ).viaSeq = p.isFleet := by
  cases p with
  | agent a => simp [runPart, Participant.isFleet]
  | fleet n d s ps => simp [runPart, Participant.isFleet]

/-- Two participant lists with the same names agree on names at every index
(same for kinds). -/
theorem get_pname_of_map_eq (ps ps0 : List Participant)
    (h : ps.map Participant.pname = ps0.map Participant.pname)
    (i : Nat) (hi : i < ps.length) (hi0 : i < ps0.length) :
    (ps.get ⟨i, hi⟩).pname = (ps0.get ⟨i, hi0⟩).pname := by
  have := congrArg (fun l => l.getD i "") h
  simpa [List.getD, List.getElem?_eq_getElem, hi, hi0] using this

theorem get_isFleet_of_map_eq (ps ps0 : List Participant)
    (h : ps.map Participant.isFleet = ps0.map Participant.isFleet)
    (i : Nat) (hi : i < ps.length) (hi0 : i < ps0.length) :
    (ps.get ⟨i, hi⟩).isFleet = (ps0.get ⟨i, hi0⟩).isFleet := by
  have := congrArg (fun l => l.getD i true) h
  simpa [List.getD, List.getElem?_eq_getElem, hi, hi0] using this

/-- Characterization of the concurrently launched tasks: they are executed in
completion order `sched`; every task record carries the shared initial
message reference; each record's name and branch flag agree with the declared
participant at its index; and if the run raised no exception, every task
completed with a value. -/
theorem runTasks_recs (jl : JLoads) (model : String) :
    ∀ (sched : List Nat) (ps ps0 : List Participant) (mref : Ref) (σ : Heap),
      ps.map Participant.pname = ps0.map Participant.pname →
      ps.map Participant.isFleet = ps0.map Participant.isFleet →
      (∀ i ∈ sched, i < ps0.length) →
      (runTasks jl model ps sched mref σ).2.2.2.map TaskRec.idx = sched ∧
      (∀ rec ∈ (runTasks jl model ps sched mref σ).2.2.2,
        rec.ref = mref ∧
        ∃ h : rec.idx < ps0.length,
          rec.pname = (ps0.get ⟨rec.idx, h⟩).pname ∧
          rec.viaSeq = (ps0.get ⟨rec.idx, h⟩).isFleet) ∧
      ((runTasks jl model ps sched mref σ).1 = .ok () →
        ∀ rec ∈ (runTasks jl model ps sched mref σ).2.2.2, ∃ v, rec.out = .ok v) := by
  intro sched
  induction sched with
  | nil =>
    intro ps ps0 mref σ hn hf hs
    refine ⟨rfl, ?_, ?_⟩
    · intro rec hrec
      exact absurd hrec (by simp [runTasks])
    · intro _ rec hrec
      exact absurd hrec (by simp [runTasks])
  | cons i rest ih =>
    intro ps ps0 mref σ hn hf hs
    have hlen : ps.length = ps0.length := by
      have := congrArg List.length hn
      simpa using this
    have hi0 : i < ps0.length := hs i (by simp)
    have hi : i < ps.length := by omega
    have hp : ps[i]? = some (ps.get ⟨i, hi⟩) := by
      simp [List.getElem?_eq_getElem hi]
    rw [runTasks]
    simp only [hp]
    have hnames2 : (ps.set i (runPart jl model (ps.get ⟨i, hi⟩) mref σ).part).map
        Participant.pname = ps0.map Participant.pname := by
      rw [← hn]
      apply map_set_preserve
      intro hh
      exact (runPart_frame jl model (ps.get ⟨i, hi⟩) mref σ).2.2.1
    have hfleet2 : (ps.set i (runPart jl model (ps.get ⟨i, hi⟩) mref σ).part).map
        Participant.isFleet = ps0.map Participant.isFleet := by
      rw [← hf]
      apply map_set_preserve
      intro hh
      exact (runPart_frame jl model (ps.get ⟨i, hi⟩) mref σ).2.2.2
    obtain ⟨ih1, ih2, ih3⟩ := ih (ps.set i (runPart jl model (ps.get ⟨i, hi⟩) mref σ).part)
      ps0 mref (runPart jl model (ps.get ⟨i, hi⟩) mref σ).heap hnames2 hfleet2
      (fun j hj => hs j (by simp [hj]))
    rcases hrec : runTasks jl model (ps.set i (runPart jl model (ps.get ⟨i, hi⟩) mref σ).part)
        rest mref (runPart jl model (ps.get ⟨i, hi⟩) mref σ).heap with ⟨oR, ps2, σ2, recs⟩
    rw [hrec] at ih1 ih2 ih3
    dsimp only at ih1 ih2 ih3 ⊢
    refine ⟨?_, ?_, ?_⟩
    · simp [ih1]
    · intro rec hmem
      rcases List.mem_cons.mp hmem with h | h
      · subst h
        refine ⟨rfl, hi0, ?_, ?_⟩
        · exact get_pname_of_map_eq ps ps0 hn i hi hi0
        · rw [runPart_viaSeq]
          exact get_isFleet_of_map_eq ps ps0 hf i hi hi0
      · exact ih2 rec h
    · intro hok rec hmem
      have houts : (runPart jl model (ps.get ⟨i, hi⟩) mref σ).out = .ok
          (match (runPart jl model (ps.get ⟨i, hi⟩) mref σ).out with
            | .ok v => v | .error _ => none) ∧ oR = .ok () := by
        rcases ho : (runPart jl model (ps.get ⟨i, hi⟩) mref σ).out with e | v
        · rw [ho] at hok
          exact absurd hok (by simp)
        · rw [ho] at hok
          exact ⟨rfl, hok⟩
      rcases List.mem_cons.mp hmem with h | h
      · subst h
        exact ⟨_, houts.1⟩
      · exact ih3 houts.2 rec h

theorem getD_map_range {β : Type} (n i : Nat) (f : Nat → β) (d : β) (hi : i < n) :
    ((List.range n).map f).getD i d = f i := by
  simp [List.getD, List.getElem?_map, List.getElem?_range, hi]

/-- The task records of a concurrent composition are exactly those produced
by running the launched tasks, whatever the outcome and the synthesize
flag. -/
theorem compose_asynchronously_recs (jl : JLoads) (model : String)
    (sched : List Nat) (f : Fleet) (mref : Ref) (σ : Heap) :
    (compose_asynchronously jl model sched f mref σ).recs =
      (runTasks jl model f.agents_or_composers sched mref σ).2.2.2 := by
  rw [compose_asynchronously]
  rcases hrt : runTasks jl model f.agents_or_composers sched mref σ with ⟨o, ps1, σ1, recs⟩
  simp only [hrt]
  cases o with
  | error e => rfl
  | ok u =>
    dsimp only
    split
    · split
      · rfl
      · rfl
    · rfl

/-- Claim C2: with `synthesize = false` and any completion order that runs
each launched task exactly once, concurrent composition returns a list whose
length equals the number of declared participants; the tasks actually
complete in schedule order (`recs` is ordered by `sched`), yet the i-th
element of the returned list is the value produced by the task launched for
the i-th declared participant, independent of the schedule. -/
theorem c2_concurrent_result_order (jl : JLoads) (model : String)
    (sched : List Nat) (f : Fleet) (mref : Ref) (σ : Heap)
    (results : List (Option ResponseObject))
    (hsyn : f.synthesize = false)
    (hperm : sched.Perm (List.range f.agents_or_composers.length))
    (hok : (compose_asynchronously jl model sched f mref σ).out = .ok (.inr results)) :
    results.length = f.agents_or_composers.length ∧
    (compose_asynchronously jl model sched f mref σ).recs.map TaskRec.idx = sched ∧
    (∀ i, ∀ hi : i < f.agents_or_composers.length,
      ∃ rec, (compose_asynchronously jl model sched f mref σ).recs.find?
          (fun rc => rc.idx == i) = some rec ∧
        rec ∈ (compose_asynchronously jl model sched f mref σ).recs ∧
        rec.idx = i ∧
        rec.pname = (f.agents_or_composers.get ⟨i, hi⟩).pname ∧
        ∃ v, rec.out = .ok v ∧ results.getD i none = v) := by
  obtain ⟨h1, h2, h3⟩ := runTasks_recs jl model sched f.agents_or_composers
    f.agents_or_composers mref σ rfl rfl
    (fun i hi => by
      have hmem : i ∈ List.range f.agents_or_composers.length := hperm.mem_iff.mp hi
      exact List.mem_range.mp hmem)
  have hrecs := compose_asynchronously_recs jl model sched f mref σ
  rcases hrt : runTasks jl model f.agents_or_composers sched mref σ with ⟨o, ps1, σ1, recs⟩
  rw [hrt] at h1 h2 h3 hrecs
  dsimp only at h1 h2 h3 hrecs
  have hred : compose_asynchronously jl model sched f mref σ =
      ⟨(compose_asynchronously jl model sched f mref σ).out,
        (compose_asynchronously jl model sched f mref σ).parts,
        (compose_asynchronously jl model sched f mref σ).heap, recs⟩ := by
    rcases hca : compose_asynchronously jl model sched f mref σ with ⟨o2, p2, σ2, r2⟩
    have : r2 = recs := by
      have := hrecs
      rw [hca] at this
      exact this
    rw [this]
  cases o with
  | error e =>
    rw [compose_asynchronously, hrt] at hok
    exact absurd hok (by simp)
  | ok u =>
    rw [compose_asynchronously, hrt] at hok
    dsimp only at hok
    rw [hsyn] at hok
    simp only [Bool.false_eq_true, if_false] at hok
    have hres : results = gatherResults f.agents_or_composers.length recs := by
      injection hok with h
      injection h with h2'
      exact h2'.symm
    subst hres
    refine ⟨by simp [gatherResults], by rw [hrecs]; exact h1, ?_⟩
    intro i hi
    have hisched : i ∈ sched := hperm.symm.mem_iff.mp (List.mem_range.mpr hi)
    have himem : i ∈ recs.map TaskRec.idx := by
      rw [h1]
      exact hisched
    obtain ⟨rec0, hrec0mem, hrec0idx⟩ := List.mem_map.mp himem
    have hfind : (recs.find? fun rc => rc.idx == i).isSome := by
      rw [List.find?_isSome]
      exact ⟨rec0, hrec0mem, by simp [hrec0idx]⟩
    obtain ⟨rec, hreceq⟩ := Option.isSome_iff_exists.mp hfind
    have hrecmem : rec ∈ recs := List.mem_of_find?_eq_some hreceq
    have hrecidx : rec.idx = i := by
      have := List.find?_some hreceq
      simpa using this
    obtain ⟨_, hlt2, hpn, _⟩ := h2 rec hrecmem
    obtain ⟨v, hv⟩ := h3 (by cases u; exact rfl) rec hrecmem
    refine ⟨rec, by rw [hrecs]; exact hreceq, by rw [hrecs]; exact hrecmem, hrecidx, ?_, v, hv, ?_⟩
    · rw [hpn]
      congr 1
      simp [hrecidx]
    · rw [show gatherResults f.agents_or_composers.length recs =
        (List.range f.agents_or_composers.length).map
          (fun j => (recs.find? fun rc => rc.idx == j).bind TaskRec.respOf) from rfl]
      rw [getD_map_range _ _ _ _ hi, hreceq]
      simp [TaskRec.respOf, hv]

/-- Claim C7: every concurrently launched task is handed the very same
`initial_message` reference, and the branch flag of each record shows that a
direct participant that is a Fleet ran through `compose_synchronously` (the
sequential protocol) while an individual agent ran through `send_message` —
only the top-level fan-out is concurrent. -/
theorem c7_concurrent_dispatch (jl : JLoads) (model : String) (sched : List Nat)
    (f : Fleet) (mref : Ref) (σ : Heap)
    (hsched : ∀ i ∈ sched, i < f.agents_or_composers.length) :
    (compose_asynchronously jl model sched f mref σ).recs.map TaskRec.idx = sched ∧
    ∀ rec ∈ (compose_asynchronously jl model sched f mref σ).recs,
      rec.ref = mref ∧
      ∃ h : rec.idx < f.agents_or_composers.length,
        rec.pname = (f.agents_or_composers.get ⟨rec.idx, h⟩).pname ∧
        rec.viaSeq = (f.agents_or_composers.get ⟨rec.idx, h⟩).isFleet := by
  obtain ⟨h1, h2, _⟩ := runTasks_recs jl model sched f.agents_or_composers
    f.agents_or_composers mref σ rfl rfl hsched
  rw [compose_asynchronously_recs jl model sched f mref σ]
  exact ⟨h1, h2⟩

/-- Witness for C2: two participants completing in reversed schedule order
`[1, 0]` still yield an index-aligned result list. -/
theorem c2_witness :
    ([some ⟨"ok", 1, 2⟩, some ⟨"ok", 1, 2⟩] : List (Option ResponseObject)).length =
      ([.agent (mkPlainAgent "A"), .agent (mkPlainAgent "B")] : List Participant).length ∧
    (compose_asynchronously jlId "m1" [1, 0]
        ⟨[.agent (mkPlainAgent "A"), .agent (mkPlainAgent "B")], "F", "", false⟩
        0 [⟨"user", some "hi", none, []⟩]).recs.map TaskRec.idx = [1, 0] ∧
    (∀ i, ∀ hi : i < ([.agent (mkPlainAgent "A"), .agent (mkPlainAgent "B")] : List Participant).length,
      ∃ rec, (compose_asynchronously jlId "m1" [1, 0]
          ⟨[.agent (mkPlainAgent "A"), .agent (mkPlainAgent "B")], "F", "", false⟩
          0 [⟨"user", some "hi", none, []⟩]).recs.find? (fun rc => rc.idx == i) = some rec ∧
        rec ∈ (compose_asynchronously jlId "m1" [1, 0]
          ⟨[.agent (mkPlainAgent "A"), .agent (mkPlainAgent "B")], "F", "", false⟩
          0 [⟨"user", some "hi", none, []⟩]).recs ∧
        rec.idx = i ∧
        rec.pname = (([.agent (mkPlainAgent "A"), .agent (mkPlainAgent "B")] : List Participant).get ⟨i, hi⟩).pname ∧
        ∃ v, rec.out = .ok v ∧
          ([some ⟨"ok", 1, 2⟩, some ⟨"ok", 1, 2⟩] : List (Option ResponseObject)).getD i none = v) :=
  c2_concurrent_result_order jlId "m1" [1, 0]
    ⟨[.agent (mkPlainAgent "A"), .agent (mkPlainAgent "B")], "F", "", false⟩
    0 [⟨"user", some "hi", none, []⟩] [some ⟨"ok", 1, 2⟩, some ⟨"ok", 1, 2⟩]
    rfl (by decide) rfl

/-- Witness for C7: an agent and a nested fleet, completing in reversed
order, each receive the shared message reference, the nested fleet through
the sequential branch. -/
theorem c7_witness :
    (compose_asynchronously jlId "m1" [1, 0]
        ⟨[.agent (mkPlainAgent "A"), .fleet "N" "" true [.agent (mkPlainAgent "C")]],
          "F", "", false⟩
        0 [⟨"user", some "hi", none, []⟩]).recs.map TaskRec.idx = [1, 0] ∧
    ∀ rec ∈ (compose_asynchronously jlId "m1" [1, 0]
        ⟨[.agent (mkPlainAgent "A"), .fleet "N" "" true [.agent (mkPlainAgent "C")]],
          "F", "", false⟩
        0 [⟨"user", some "hi", none, []⟩]).recs,
      rec.ref = 0 ∧
      ∃ h : rec.idx < ([.agent (mkPlainAgent "A"),
          .fleet "N" "" true [.agent (mkPlainAgent "C")]] : List Participant).length,
        rec.pname = (([.agent (mkPlainAgent "A"),
          .fleet "N" "" true [.agent (mkPlainAgent "C")]] : List Participant).get ⟨rec.idx, h⟩).pname ∧
        rec.viaSeq = (([.agent (mkPlainAgent "A"),
          .fleet "N" "" true [.agent (mkPlainAgent "C")]] : List Participant).get ⟨rec.idx, h⟩).isFleet :=
  c7_concurrent_dispatch jlId "m1" [1, 0]
    ⟨[.agent (mkPlainAgent "A"), .fleet "N" "" true [.agent (mkPlainAgent "C")]],
      "F", "", false⟩
    0 [⟨"user", some "hi", none, []⟩] (by decide)
